import Mathlib

/-!
Verification of the stream-compaction pipeline of
`src/strava/stream_jsonl_processor.py` against its specification.

Modelling conventions:
* Python floats are modelled as rationals (`ℚ`); all arithmetic in the
  pipeline is exact on the inputs considered.
* Python strings are modelled as `List Char` (`Chars`); dictionary keys of
  the stream dictionaries as Lean `String`.
* Python heterogeneous stream values are modelled by `PyVal`
  (None, bool, number, string).
* The one unbounded loop of the source (`_find_sampling_indices`'s
  target-time loop) is modelled with explicit fuel; `none` means the fuel
  ran out (in Python the loop would still be running).
* Functions that can raise or produce an empty result return `Option`.
-/

/-- Strings as explicit character lists (`str` values of the source). -/
abbrev Chars := List Char

/-- Python `round` / numpy rounding: round half to even (banker's rounding). -/
def pyRound (q : ℚ) : ℤ :=
  let f := ⌊q⌋
  let r := q - f
  if r < 1/2 then f
  else if 1/2 < r then f + 1
  else if f % 2 = 0 then f else f + 1

/-- Python `int()` on a float: truncation toward zero. -/
def pyTrunc (q : ℚ) : ℤ := if q < 0 then -⌊-q⌋ else ⌊q⌋

/-- The decimal digit character for `d % 10`. -/
def digitChar (d : ℕ) : Char :=
  ['0', '1', '2', '3', '4', '5', '6', '7', '8', '9'].getD (d % 10) '0'

/-- Decimal digits of a natural number, accumulator style, fuelled so that
the definition is structural (fuel `n + 1` always suffices). -/
def natDigitsAux : ℕ → ℕ → Chars → Chars
  | 0, _, acc => acc
  | fuel + 1, n, acc =>
    if n < 10 then digitChar n :: acc
    else natDigitsAux fuel (n / 10) (digitChar (n % 10) :: acc)

/-- Decimal representation of a natural number (Python `str`). -/
def natStr (n : ℕ) : Chars := natDigitsAux (n + 1) n []

/-- Decimal representation of an integer (Python `str`). -/
def intStr (i : ℤ) : Chars :=
  if i < 0 then '-' :: natStr i.natAbs else natStr i.natAbs

/-- Python string values appearing in streams: `None`, booleans, numbers
(int and float collapsed into `ℚ`), strings. -/
inductive PyVal where
  | none : PyVal
  | pybool (b : Bool) : PyVal
  | num (q : ℚ) : PyVal
  | str (s : Chars) : PyVal
deriving DecidableEq

/-- Python truthiness of a stream value (`bool(value)`). -/
def truthy : PyVal → Bool
  | PyVal.none => false
  | PyVal.pybool b => b
  | PyVal.num q => q ≠ 0
  | PyVal.str s => s ≠ []

/-- `value not in (None, "")`: the check `_filter_by_moving` uses to decide
whether a moving entry is meaningful.  (Python `in` compares with `==`;
numbers and booleans never equal `None` or `""`.) -/
def meaningful : PyVal → Bool
  | PyVal.none => false
  | PyVal.str s => s ≠ []
  | _ => true

/-- `_is_numeric_value`: non-None, not `""`, and `isinstance (int, float)`.
Booleans are numeric in Python (`bool` is a subclass of `int`). -/
def is_numeric_value : PyVal → Bool
  | PyVal.num _ => true
  | PyVal.pybool _ => true
  | _ => false

/-- Python `float(value)` for values that convert; `none` for values on
which `float` would raise (`None`, strings). -/
def pyFloatOpt : PyVal → Option ℚ
  | PyVal.num q => some q
  | PyVal.pybool b => some (if b then 1 else 0)
  | _ => Option.none

/-- `_extract_numeric_values`: numeric values of a list, cast to float,
order preserved, gaps dropped. -/
def extract_numeric_values (data : List PyVal) : List ℚ :=
  data.filterMap fun v => if is_numeric_value v then pyFloatOpt v else Option.none

/-- Convert every entry with `float` or fail (used on the `time` stream,
where a non-convertible entry would raise in Python). -/
def allFloats : List PyVal → Option (List ℚ)
  | [] => some []
  | v :: rest =>
    match pyFloatOpt v, allFloats rest with
    | some q, some qs => some (q :: qs)
    | _, _ => Option.none

/-- Association-list model of a Python dict keyed by strings (unique keys). -/
abbrev StreamDict := List (String × List PyVal)

/-- `d.get(k)` / `d[k]`: first binding of the key. -/
def dictGet (k : String) : List (String × α) → Option α
  | [] => Option.none
  | (k', v) :: rest => if k' = k then some v else dictGet k rest

/-- `d[k] = v`: replace the binding in place, or append a new one. -/
def dictSet (k : String) (v : α) : List (String × α) → List (String × α)
  | [] => [(k, v)]
  | (k', v') :: rest =>
    if k' = k then (k, v) :: rest else (k', v') :: dictSet k v rest

/-- `d.pop(k, None)`: remove the key.  Dict keys are unique, so removing
every binding of `k` models removing the one binding. -/
def dictPop (k : String) (d : List (String × α)) : List (String × α) :=
  d.filter fun kv => kv.1 ≠ k

/-- `k in d`. -/
def hasKey (k : String) (d : List (String × α)) : Bool := (dictGet k d).isSome

/-- One raw stream as fetched from the API: `{'type': ..., 'data': [...]}`. -/
structure RawStream where
  type : Option String
  data : List PyVal
deriving DecidableEq

/-- `_convert_streams_to_dict`: build the dict, skipping streams whose type
is falsy (`None` or `""`) or whose data list is empty; later streams of the
same type overwrite earlier ones. -/
def convert_streams_to_dict (streams : List RawStream) : StreamDict :=
  streams.foldl
    (fun d s =>
      match s.type with
      | Option.none => d
      | some t => if t ≠ "" ∧ s.data ≠ [] then dictSet t s.data d else d)
    []

/-- `_filter_by_moving`: restrict every stream to the indices where the
`moving` stream is truthy.  If `moving` is absent, or has no meaningful
(non-None, non-empty) value, the dict passes through unchanged; if it has
meaningful values but no truthy one, the whole dict collapses to empty. -/
def filter_by_moving (d : StreamDict) : StreamDict :=
  match dictGet "moving" d with
  | Option.none => d
  | some movingData =>
    if ¬ movingData.any meaningful then d
    else
      let validIndices :=
        (List.range movingData.length).filter fun i =>
          truthy (movingData.getD i PyVal.none)
      if validIndices = [] then []
      else
        d.map fun kv =>
          (kv.1, validIndices.filterMap fun i =>
            if i < kv.2.length then some (kv.2.getD i PyVal.none) else Option.none)

/-- `value * CADENCE_MULTIPLIER` for a numeric value (booleans multiply as
0/1 in Python). -/
def doubleVal (v : PyVal) : PyVal :=
  match v with
  | PyVal.num q => PyVal.num (q * 2)
  | PyVal.pybool b => PyVal.num (if b then 2 else 0)
  | _ => v

/-- `_double_cadence_values`: double every numeric cadence value, leave
non-numeric entries unchanged. -/
def double_cadence_values (d : StreamDict) : StreamDict :=
  match dictGet "cadence" d with
  | Option.none => d
  | some cad =>
    dictSet "cadence" (cad.map fun v => if is_numeric_value v then doubleVal v else v) d

/-- `_stream_key_for_quantiles`. -/
def stream_key_for_quantiles (t : String) : String :=
  if t = "heartrate" then "hr_bpm"
  else if t = "altitude" then "altitude_m"
  else if t = "distance" then "distance_m"
  else if t = "velocity_smooth" then "velocity_smooth_ms"
  else if t = "cadence" then "cadence_spm"
  else if t = "time" then "time_s"
  else t

/-- The fixed quantile levels of the module. -/
def QUANTILE_LEVELS : List ℕ := [5, 25, 50, 75, 95]

/-- `np.percentile` with the default linear interpolation between order
statistics: sort ascending, take virtual rank `p/100 * (n-1)` and
interpolate between the neighbouring elements. -/
def percentile (vals : List ℚ) (p : ℚ) : ℚ :=
  let sorted := List.insertionSort (· ≤ ·) vals
  let n := sorted.length
  let rank := p / 100 * ((n : ℚ) - 1)
  let lo := (⌊rank⌋).toNat
  let x0 := sorted.getD lo 0
  let x1 := sorted.getD (lo + 1) x0
  x0 + (rank - (⌊rank⌋ : ℚ)) * (x1 - x0)

/-- `float(np.round(x, 6))`: round half to even at six decimals. -/
def npRound6 (q : ℚ) : ℚ := (pyRound (q * 1000000) : ℚ) / 1000000

/-- The per-stream quantile dictionary `{str(level): value}`. -/
def percentileDict (vals : List ℚ) : List (String × ℚ) :=
  QUANTILE_LEVELS.map fun lv => (String.mk (natStr lv), npRound6 (percentile vals (lv : ℚ)))

/-- The quantile summary: stream key → (level → value). -/
abbrev QList := List (String × List (String × ℚ))

/-- `_calculate_quantiles`: quantiles of every stream's numeric values,
under the renamed key; `velocity_smooth` is skipped unless velocity is
included; streams with no numeric values are skipped. -/
def calculate_quantiles (d : StreamDict) (includeVelocity : Bool) : QList :=
  d.foldl
    (fun acc kv =>
      if kv.2 = [] then acc
      else
        let numeric := extract_numeric_values kv.2
        if numeric = [] then acc
        else
          let key := stream_key_for_quantiles kv.1
          if key = "velocity_smooth_ms" ∧ ¬ includeVelocity then acc
          else dictSet key (percentileDict numeric) acc)
    []

/-- The raw pace list of `_calculate_pace_quantiles`: every consecutive
full-resolution pair with positive time and distance deltas contributes
`(dt / dd) * 1000`.  (A non-numeric, non-None distance entry would raise in
Python; it is modelled as a skipped pair.) -/
def pace_raw_values (timeData : List ℚ) (distData : List PyVal) : List ℚ :=
  (List.range timeData.length).filterMap fun i =>
    if i = 0 then Option.none
    else
      let dt := timeData.getD i 0 - timeData.getD (i - 1) 0
      if dt ≤ 0 then Option.none
      else if distData.length ≤ i then Option.none
      else
        match pyFloatOpt (distData.getD i PyVal.none),
              pyFloatOpt (distData.getD (i - 1) PyVal.none) with
        | some di, some dprev =>
          let dd := di - dprev
          if dd ≤ 0 then Option.none else some (dt / dd * 1000)
        | _, _ => Option.none

/-- `_calculate_pace_quantiles`. -/
def calculate_pace_quantiles (timeData : List ℚ) (distData : List PyVal) :
    Option (List (String × ℚ)) :=
  let raw := pace_raw_values timeData distData
  if raw = [] then Option.none else some (percentileDict raw)

/-- The target-time loop of `_find_sampling_indices`:
`current = 0; while current <= max_time: append; current += interval`,
fuelled.  `none` means the fuel ran out (for a non-positive interval the
Python loop does not terminate). -/
def build_target_times : ℕ → ℚ → ℚ → ℚ → Option (List ℚ)
  | 0, current, maxTime, _ =>
    if current ≤ maxTime then Option.none else some []
  | fuel + 1, current, maxTime, interval =>
    if current ≤ maxTime then
      (build_target_times fuel (current + interval) maxTime interval).map (current :: ·)
    else some []

/-- Python `min(range(len(l)), key=...)`: first index attaining the
minimal key (later elements replace only on a strictly smaller key). -/
def pyMinBy (key : ℕ → ℚ) : List ℕ → ℕ
  | [] => 0
  | x :: xs => xs.foldl (fun best i => if key i < key best then i else best) x

/-- The closest index of `timeData` to a target time, ties broken toward
the earlier index. -/
def closest_idx (timeData : List ℚ) (target : ℚ) : ℕ :=
  pyMinBy (fun i => |timeData.getD i 0 - target|) (List.range timeData.length)

/-- Order-preserving de-duplication with a `seen` set. -/
def dedupFirst (seen : List ℕ) : List ℕ → List ℕ
  | [] => []
  | x :: xs => if x ∈ seen then dedupFirst seen xs else x :: dedupFirst (x :: seen) xs

/-- `_find_sampling_indices`: closest index to every multiple of the
interval up to the last observed time, de-duplicated in first-occurrence
order. -/
def find_sampling_indices (fuel : ℕ) (timeData : List ℚ) (interval : ℚ) :
    Option (List ℕ) :=
  if timeData = [] then some []
  else
    (build_target_times fuel 0 (timeData.getLastD 0) interval).map fun targets =>
      dedupFirst [] (targets.map (closest_idx timeData))

/-- The pace token computed from a time delta and the two distance values
(spec wording: pace from the deltas between two sampled points):
`(dt / dd) * 1000` seconds per km, rounded and stringified; empty on a
missing distance or a non-positive delta. -/
def paceToken (dt : ℚ) (dcur dprev : Option ℚ) : Chars :=
  match dcur, dprev with
  | some a, some b =>
    if 0 < a - b ∧ 0 < dt then intStr (pyRound (dt / (a - b) * 1000)) else []
  | _, _ => []

/-- The body of `_calculate_pace_values` for one sampled position `i`:
position 0 uses the deltas to the next sampled point, every later
position the deltas to the previous one. -/
def paceEntryAt (st : List ℚ) (sd : List (Option ℚ)) (i : ℕ) : Chars :=
  if i = 0 then
    if 1 < st.length ∧ (sd.getD 0 Option.none).isSome ∧ (sd.getD 1 Option.none).isSome then
      let dt := st.getD 1 0 - st.getD 0 0
      let dd := (sd.getD 1 Option.none).getD 0 - (sd.getD 0 Option.none).getD 0
      if 0 < dd ∧ 0 < dt then intStr (pyRound (dt / dd * 1000)) else []
    else []
  else
    let dt := st.getD i 0 - st.getD (i - 1) 0
    if (sd.getD i Option.none).isSome ∧ (sd.getD (i - 1) Option.none).isSome then
      let dd := (sd.getD i Option.none).getD 0 - (sd.getD (i - 1) Option.none).getD 0
      if 0 < dd ∧ 0 < dt then intStr (pyRound (dt / dd * 1000)) else []
    else []

/-- `_calculate_pace_values`: one pace token per sampled position. -/
def calculate_pace_values (sampledTime : List ℚ) (sampledDistance : List (Option ℚ)) :
    List Chars :=
  (List.range sampledTime.length).map (paceEntryAt sampledTime sampledDistance)

/-- `_sample_stream_data`: `data[i]` at each index when in range and not
None, else a missing entry.  (Values are numeric in well-formed streams; a
non-numeric value would raise later in Python and is modelled as missing.) -/
def sample_stream_data (data : List PyVal) (indices : List ℕ) : List (Option ℚ) :=
  indices.map fun i =>
    if i < data.length then pyFloatOpt (data.getD i PyVal.none) else Option.none

/-- `,`-join of a token list (`",".join(...)`). -/
def joinComma : List Chars → Chars
  | [] => []
  | [x] => x
  | x :: y :: rest => x ++ ',' :: joinComma (y :: rest)

/-- The token list of `_format_sampled_values`: a formatted token per
sampled value, the empty token for a missing value. -/
def sampledTokens (values : List (Option ℚ)) (fmt : ℚ → Chars) : List Chars :=
  values.map fun v =>
    match v with
    | some q => fmt q
    | Option.none => []

/-- The default format of `_format_sampled_values`: `str(int(round(v)))`. -/
def defaultFmt (q : ℚ) : Chars := intStr (pyRound q)

/-- `_format_sampled_values`. -/
def format_sampled_values (values : List (Option ℚ)) (fmt : ℚ → Chars) : Chars :=
  joinComma (sampledTokens values fmt)

/-- Left-pad a digit string with zeros to length `e`. -/
def padLeft (e : ℕ) (s : Chars) : Chars := List.replicate (e - s.length) '0' ++ s

/-- The velocity format `f"{float(v):.2f}"`, modelled with exact rounding
of the rational value to two decimals. -/
def format2f (q : ℚ) : Chars :=
  let scaled := pyRound (q * 100)
  let a := scaled.natAbs
  (if scaled < 0 then ['-'] else []) ++ natStr (a / 100) ++ '.' :: padLeft 2 (natStr (a % 100))

/-- The compact record built by `_sample_streams_common`; a `none` field is
a key absent from the Python dict. -/
structure CompactRecord where
  sampling : Chars
  time_s_csv : Chars
  pace_s_per_km_csv : Option Chars
  hr_bpm_csv : Option Chars
  alt_m_csv : Option Chars
  velocity_smooth_ms_csv : Option Chars
  cadence_spm_csv : Option Chars
deriving DecidableEq

/-- The stream-normalization stage of `_sample_streams_common` (convert to
dict, optional moving filter, drop `moving`, double cadence, require a
non-empty `time` stream, rebase time to zero).  Returns the normalized dict
and the rebased time list; `none` models both the early empty returns and a
`time` entry on which `float()` would raise. -/
def normalize_streams (streamsData : List RawStream) (filterMoving : Bool) :
    Option (StreamDict × List ℚ) :=
  if streamsData = [] then Option.none
  else
    let d0 := convert_streams_to_dict streamsData
    let d1 := if filterMoving then filter_by_moving d0 else d0
    if filterMoving ∧ d1 = [] then Option.none
    else
      let d2 := dictPop "moving" d1
      let d3 := double_cadence_values d2
      match dictGet "time" d3 with
      | Option.none => Option.none
      | some timeVals =>
        if timeVals = [] then Option.none
        else
          match allFloats timeVals with
          | Option.none => Option.none
          | some ts =>
            let offset := ts.headD 0
            let rebased := ts.map (· - offset)
            some (dictSet "time" (rebased.map PyVal.num) d3, rebased)

/-- The de-duplicated sampling indices the pipeline uses for a given input
(the composition of normalization and `_find_sampling_indices`). -/
def pipeline_indices (fuel : ℕ) (streamsData : List RawStream) (intervalSeconds : ℚ)
    (filterMoving : Bool) : Option (List ℕ) :=
  match normalize_streams streamsData filterMoving with
  | Option.none => Option.none
  | some (_, timeData) => find_sampling_indices fuel timeData intervalSeconds

/-- `_sample_streams_common`: the full sampling pipeline.  `none` models
the `({}, {})` returns of the source (and fuel exhaustion of the
target-time loop). -/
def sample_streams_common (fuel : ℕ) (streamsData : List RawStream)
    (intervalSeconds : ℚ) (filterMoving includePace includeVelocity : Bool) :
    Option (CompactRecord × QList) :=
  match normalize_streams streamsData filterMoving with
  | Option.none => Option.none
  | some (d, timeData) =>
    let q0 := calculate_quantiles d includeVelocity
    let quantilesResult :=
      if includePace ∧ hasKey "distance" d then
        match calculate_pace_quantiles timeData ((dictGet "distance" d).getD []) with
        | some pq => dictSet "pace_s_per_km" pq q0
        | Option.none => q0
      else q0
    match find_sampling_indices fuel timeData intervalSeconds with
    | Option.none => Option.none
    | some [] => Option.none
    | some idxs =>
      let sampledTime := idxs.map (timeData.getD · 0)
      let rec0 : CompactRecord :=
        { sampling := "approx_".data ++ intStr (pyTrunc intervalSeconds) ++ "s".data
          time_s_csv := joinComma (sampledTime.map fun t => intStr (pyRound t))
          pace_s_per_km_csv :=
            if includePace ∧ hasKey "distance" d then
              some (joinComma (calculate_pace_values sampledTime
                (sample_stream_data ((dictGet "distance" d).getD []) idxs)))
            else Option.none
          hr_bpm_csv :=
            if hasKey "heartrate" d then
              some (format_sampled_values
                (sample_stream_data ((dictGet "heartrate" d).getD []) idxs) defaultFmt)
            else Option.none
          alt_m_csv :=
            if hasKey "altitude" d then
              some (format_sampled_values
                (sample_stream_data ((dictGet "altitude" d).getD []) idxs) defaultFmt)
            else Option.none
          velocity_smooth_ms_csv :=
            if includeVelocity ∧ hasKey "velocity_smooth" d then
              some (format_sampled_values
                (sample_stream_data ((dictGet "velocity_smooth" d).getD []) idxs) format2f)
            else Option.none
          cadence_spm_csv :=
            if hasKey "cadence" d then
              some (format_sampled_values
                (sample_stream_data ((dictGet "cadence" d).getD []) idxs) defaultFmt)
            else Option.none }
      some (rec0, quantilesResult)

/-- Python whitespace for `str.strip()`. -/
def isSpaceChar (c : Char) : Bool := c = ' ' ∨ c = '\t' ∨ c = '\n' ∨ c = '\r'

/-- `str.strip()`. -/
def pyStrip (s : Chars) : Chars :=
  ((s.dropWhile isSpaceChar).reverse.dropWhile isSpaceChar).reverse

/-- `str.lower()`. -/
def pyLower (s : Chars) : Chars := s.map Char.toLower

/-- `s.startswith(pre)`. -/
def startsWithChars (pre s : Chars) : Bool := s.take pre.length = pre

/-- `_is_running_activity`: falsy names are not running; otherwise strip,
lowercase, test the `running` head. -/
def is_running_activity : Option Chars → Bool
  | Option.none => false
  | some name =>
    if name = [] then false
    else startsWithChars "running".data (pyLower (pyStrip name))

/-- `_is_rest_activity`. -/
def is_rest_activity : Option Chars → Bool
  | Option.none => false
  | some name =>
    if name = [] then false
    else startsWithChars "rest".data (pyLower (pyStrip name))

/-- `d.pop(k)` on the quantile summary. -/
def qPop (k : String) (q : QList) : QList := q.filter fun kv => kv.1 ≠ k

/-- The streams part of `create_activity_jsonl_object` (lines 480-508 of
the source): run the pipeline with the policy flags of the activity name,
then drop the distance quantiles for non-running activities and the
altitude data for rest activities.  `none` means no `streams_compact` /
`quantiles` keys are attached to the record. -/
def create_activity_streams (fuel : ℕ) (activityName : Option Chars)
    (streamsData : List RawStream) (intervalSeconds : ℚ) :
    Option (CompactRecord × QList) :=
  if streamsData = [] then Option.none
  else
    let isRunning := is_running_activity activityName
    let isRest := is_rest_activity activityName
    match sample_streams_common fuel streamsData intervalSeconds
        isRunning isRunning isRunning with
    | Option.none => Option.none
    | some (c, q) =>
      let q1 := if ¬ isRunning then qPop "distance_m" q else q
      let c2 := if isRest then { c with alt_m_csv := Option.none } else c
      let q2 := if isRest then qPop "altitude_m" q1 else q1
      some (c2, q2)

/-! ### JSON values, `json.dumps` / `json.loads`, and the JSONL batch files

`JsonlActivityRecord`s contain only null, booleans, numbers, strings and
nested objects, so arrays are not modelled.  Numbers are modelled as exact
decimals `m / 10^e` (`e = 0` for Python ints), matching their serialized
decimal form. -/

mutual
inductive Json where
  | null : Json
  | jbool (b : Bool) : Json
  | num (m : ℤ) (e : ℕ) : Json
  | str (s : Chars) : Json
  | obj (fields : JObj) : Json
inductive JObj where
  | nil : JObj
  | cons (k : Chars) (v : Json) (rest : JObj) : JObj
end

/-- `d.get(k)`: first binding of a key in a JSON object. -/
def JObj.lookup (k : Chars) : JObj → Option Json
  | JObj.nil => Option.none
  | JObj.cons k' v rest => if k' = k then some v else JObj.lookup k rest

/-- `d[k] = v`: replace the first binding in place, or append. -/
def JObj.set (k : Chars) (v : Json) : JObj → JObj
  | JObj.nil => JObj.cons k v JObj.nil
  | JObj.cons k' v' rest =>
    if k' = k then JObj.cons k v rest else JObj.cons k' v' (JObj.set k v rest)

/-- The fields of an object value (`JObj.nil` for non-objects). -/
def jsonFields : Json → JObj
  | Json.obj f => f
  | _ => JObj.nil

/-- Hexadecimal digit character (lowercase, as `json.dumps` emits). -/
def hexDigit (d : ℕ) : Char :=
  if d % 16 < 10 then digitChar (d % 16) else Char.ofNat (87 + d % 16)

/-- `json.dumps` string escaping (with `ensure_ascii=False`): quote,
backslash and control characters are escaped, everything else is kept. -/
def escapeChar (c : Char) : Chars :=
  if c = '"' then ['\\', '"']
  else if c = '\\' then ['\\', '\\']
  else if c = '\n' then ['\\', 'n']
  else if c = '\t' then ['\\', 't']
  else if c = '\r' then ['\\', 'r']
  else if c = '\x08' then ['\\', 'b']
  else if c = '\x0c' then ['\\', 'f']
  else if c.toNat < 32 then ['\\', 'u', '0', '0', hexDigit (c.toNat / 16), hexDigit (c.toNat % 16)]
  else [c]

/-- Escape a whole string body. -/
def escapeChars : Chars → Chars
  | [] => []
  | c :: rest => escapeChar c ++ escapeChars rest

/-- Serialize a decimal number: `e = 0` prints an integer, otherwise the
integer part, a point and exactly `e` fraction digits. -/
def numChars (m : ℤ) (e : ℕ) : Chars :=
  (if m < 0 then ['-'] else []) ++
    (if e = 0 then natStr m.natAbs
     else natStr (m.natAbs / 10 ^ e) ++ '.' :: padLeft e (natStr (m.natAbs % 10 ^ e)))

mutual
/-- `json.dumps` of a value (default separators `', '` and `': '`). -/
def dumpsJson : Json → Chars
  | Json.null => "null".data
  | Json.jbool b => if b then "true".data else "false".data
  | Json.num m e => numChars m e
  | Json.str s => '"' :: (escapeChars s ++ ['"'])
  | Json.obj fields => '\x7b' :: (dumpsFields fields ++ ['\x7d'])
/-- The `"key": value` text of one field. -/
def dumpsEntry : Chars → Json → Chars
  | k, v => '"' :: (escapeChars k ++ '"' :: ':' :: ' ' :: dumpsJson v)
/-- The comma-separated field list of an object. -/
def dumpsFields : JObj → Chars
  | JObj.nil => []
  | JObj.cons k v JObj.nil => dumpsEntry k v
  | JObj.cons k v rest => dumpsEntry k v ++ ',' :: ' ' :: dumpsFields rest
end

/-- Decimal digit test. -/
def isDigitChar (c : Char) : Bool := 48 ≤ c.toNat ∧ c.toNat ≤ 57

/-- Value of a digit character. -/
def digitVal (c : Char) : ℕ := c.toNat - 48

/-- Value of a digit run (most significant first). -/
def digitsVal (ds : Chars) : ℕ := ds.foldl (fun a c => a * 10 + digitVal c) 0

/-- JSON whitespace. -/
def isWsChar (c : Char) : Bool := c = ' ' ∨ c = '\t' ∨ c = '\n' ∨ c = '\r'

/-- Skip leading whitespace. -/
def skipWs (s : Chars) : Chars := s.dropWhile isWsChar

/-- Python `str.strip()` over the same whitespace set. -/
def stripChars (s : Chars) : Chars := ((s.dropWhile isWsChar).reverse.dropWhile isWsChar).reverse

/-- The character of a short escape sequence. -/
def unescapeChar (c : Char) : Option Char :=
  if c = '"' then some '"'
  else if c = '\\' then some '\\'
  else if c = '/' then some '/'
  else if c = 'n' then some '\n'
  else if c = 't' then some '\t'
  else if c = 'r' then some '\r'
  else if c = 'b' then some '\x08'
  else if c = 'f' then some '\x0c'
  else Option.none

/-- Hexadecimal digit value. -/
def unhex (c : Char) : ℕ := if isDigitChar c then digitVal c else c.toNat - 87

/-- Parse a JSON string body after the opening quote, returning the string
and the rest of the input after the closing quote. -/
def parseStringBody : Chars → Option (Chars × Chars)
  | [] => Option.none
  | c :: rest =>
    if c = '"' then some ([], rest)
    else if c = '\\' then
      match rest with
      | [] => Option.none
      | e :: rest2 =>
        if e = 'u' then
          match rest2 with
          | h1 :: h2 :: h3 :: h4 :: rest3 =>
            (parseStringBody rest3).map fun p =>
              (Char.ofNat (((unhex h1 * 16 + unhex h2) * 16 + unhex h3) * 16 + unhex h4) :: p.1,
                p.2)
          | _ => Option.none
        else
          match unescapeChar e with
          | some c2 => (parseStringBody rest2).map fun p => (c2 :: p.1, p.2)
          | Option.none => Option.none
    else (parseStringBody rest).map fun p => (c :: p.1, p.2)

/-- Parse a JSON number (optional sign, digit run, optional fraction). -/
def parseNumberChars (s : Chars) : Option (Json × Chars) :=
  let neg := s.headD ' ' = '-'
  let s1 := if neg then s.tail else s
  let ds := s1.takeWhile isDigitChar
  let r1 := s1.drop ds.length
  if ds = [] then Option.none
  else if r1.headD ' ' = '.' then
    let r2 := r1.tail
    let fs := r2.takeWhile isDigitChar
    if fs = [] then Option.none
    else
      let mag : ℤ := (digitsVal ds : ℤ) * 10 ^ fs.length + (digitsVal fs : ℤ)
      some (Json.num (if neg then -mag else mag) fs.length, r2.drop fs.length)
  else some (Json.num (if neg then -(digitsVal ds : ℤ) else (digitsVal ds : ℤ)) 0, r1)

mutual
/-- Fuelled JSON value parser (`json.loads` core).  The fuel only bounds
the object-nesting recursion; `none` on exhausted fuel or a parse error. -/
def parseValue : ℕ → Chars → Option (Json × Chars)
  | 0, _ => Option.none
  | fuel + 1, s =>
    match skipWs s with
    | [] => Option.none
    | c :: rest =>
      if c = 'n' then
        if rest.take 3 = ['u', 'l', 'l'] then some (Json.null, rest.drop 3) else Option.none
      else if c = 't' then
        if rest.take 3 = ['r', 'u', 'e'] then some (Json.jbool true, rest.drop 3) else Option.none
      else if c = 'f' then
        if rest.take 4 = ['a', 'l', 's', 'e'] then some (Json.jbool false, rest.drop 4)
        else Option.none
      else if c = '"' then
        (parseStringBody rest).map fun p => (Json.str p.1, p.2)
      else if c = '\x7b' then
        match skipWs rest with
        | [] => Option.none
        | c2 :: r2 =>
          if c2 = '\x7d' then some (Json.obj JObj.nil, r2)
          else (parseFields fuel rest).map fun p => (Json.obj p.1, p.2)
      else parseNumberChars (c :: rest)
/-- Parse the non-empty field list of an object, consuming the closing
brace. -/
def parseFields : ℕ → Chars → Option (JObj × Chars)
  | 0, _ => Option.none
  | fuel + 1, s =>
    match skipWs s with
    | [] => Option.none
    | c :: rest =>
      if c = '"' then
        match parseStringBody rest with
        | Option.none => Option.none
        | some (k, r1) =>
          match skipWs r1 with
          | [] => Option.none
          | c2 :: r2 =>
            if c2 = ':' then
              match parseValue fuel r2 with
              | Option.none => Option.none
              | some (v, r3) =>
                match skipWs r3 with
                | [] => Option.none
                | c3 :: r4 =>
                  if c3 = ',' then
                    (parseFields fuel r4).map fun p => (JObj.cons k v p.1, p.2)
                  else if c3 = '\x7d' then some (JObj.cons k v JObj.nil, r4)
                  else Option.none
            else Option.none
      else Option.none
end

/-- `json.loads`: parse one value and require only whitespace after it. -/
def json_loads (s : Chars) : Option Json :=
  match parseValue (s.length + 1) s with
  | some (j, rest) => if skipWs rest = [] then some j else Option.none
  | Option.none => Option.none

/-- `save_jsonl_file`: the content of the written file, one
`json.dumps` line per record, each terminated by a newline. -/
def save_jsonl_file (objs : List Json) : Chars :=
  (objs.map fun o => dumpsJson o ++ ['\n']).flatten

/-- Split on a separator character (`str.split` / line iteration). -/
def splitOnChar (sep : Char) : Chars → List Chars
  | [] => [[]]
  | c :: rest =>
    if c = sep then [] :: splitOnChar sep rest
    else (splitOnChar sep rest).modifyHead (c :: ·)

/-- The line loop of `load_jsonl_file`: strip each line, skip blanks, parse
the rest; a malformed line fails the whole load. -/
def loadLines : List Chars → Option (List Json)
  | [] => some []
  | line :: rest =>
    let l := stripChars line
    if l = [] then loadLines rest
    else
      match json_loads l, loadLines rest with
      | some j, some js => some (j :: js)
      | _, _ => Option.none

/-- `load_jsonl_file` on a file's content. -/
def load_jsonl_file (content : Chars) : Option (List Json) :=
  loadLines (splitOnChar '\n' content)

/-! ### The heart-rate randomization utility (`modify_heartrate_to_abnormal`)

The random source is modelled as a supplied draw function; `random.randint`
maps a draw to the inclusive range `[lo, hi]`. -/

/-- `random.randint(lo, hi)` on the `d`-th draw of the source. -/
def pyRandint (lo hi : ℤ) (d : ℕ) : ℤ := lo + ((d % (hi - lo + 1).toNat : ℕ) : ℤ)

/-- The tokens the utility replaces:
`[val.strip() for val in hr_csv.split(',') if val.strip()]` — note that
empty tokens are dropped, not kept. -/
def splitHrTokens (s : Chars) : List Chars :=
  ((splitOnChar ',' s).map stripChars).filter (· ≠ [])

/-- `np.mean` of a rational list. -/
def npMean (vals : List ℚ) : ℚ := vals.sum / (vals.length : ℚ)

/-- Python `max` of a non-empty integer list. -/
def listMaxInt : List ℤ → ℤ
  | [] => 0
  | x :: xs => xs.foldl max x

/-- The quantile object the utility stores under `quantiles.hr_bpm`
(values are floats rounded at six decimals, stored as exact decimals). -/
def percentileObj (vals : List ℚ) : JObj :=
  (QUANTILE_LEVELS.map fun lv =>
      (natStr lv, Json.num (pyRound (percentile vals (lv : ℚ) * 1000000)) 6)).foldr
    (fun kv o => JObj.cons kv.1 kv.2 o) JObj.nil

/-- The new heart-rate integers for a given CSV field: one independent
draw per non-empty token.  (`int(str(n)) = n`, so the integers parsed back
from the written tokens are the drawn integers themselves.) -/
def newHrValues (draw : ℕ → ℕ) (lo hi : ℤ) (hrCsv : Chars) : List ℤ :=
  (splitHrTokens hrCsv).mapIdx fun i _ => pyRandint lo hi (draw i)

/-- The per-record transformation of `modify_heartrate_to_abnormal`
(lines 616-653 of the source): replace the heart-rate CSV tokens, then
recompute `quantiles.hr_bpm` and the top-level average/max heart-rate
scalars from the new values.  Records without the compact heart-rate field
pass through unchanged.  (A non-dict `streams_compact` or `quantiles`
value would raise in Python and is not modelled.) -/
def modify_heartrate_record (draw : ℕ → ℕ) (lo hi : ℤ) (j : Json) : Json :=
  match j with
  | Json.obj fields =>
    match JObj.lookup "streams_compact".data fields with
    | some (Json.obj sc) =>
      match JObj.lookup "hr_bpm_csv".data sc with
      | some (Json.str hrCsv) =>
        if hrCsv = [] then j
        else
          let newVals := newHrValues draw lo hi hrCsv
          let sc1 := JObj.set "hr_bpm_csv".data (Json.str (joinComma (newVals.map intStr))) sc
          let fields1 := JObj.set "streams_compact".data (Json.obj sc1) fields
          if newVals = [] then Json.obj fields1
          else
            let qf :=
              match JObj.lookup "quantiles".data fields1 with
              | some (Json.obj qf) => qf
              | _ => JObj.nil
            let qf1 := JObj.set "hr_bpm".data
              (Json.obj (percentileObj (newVals.map (fun z : ℤ => (z : ℚ))))) qf
            let fields2 := JObj.set "quantiles".data (Json.obj qf1) fields1
            let avg := pyTrunc (npMean (newVals.map (fun z : ℤ => (z : ℚ))))
            let fields3 :=
              if (JObj.lookup "average_heartrate_bpm".data fields2).isSome then
                JObj.set "average_heartrate_bpm".data (Json.num avg 0) fields2
              else fields2
            let fields4 :=
              if (JObj.lookup "max_heartrate_bpm".data fields3).isSome then
                JObj.set "max_heartrate_bpm".data (Json.num (listMaxInt newVals) 0) fields3
              else fields3
            Json.obj fields4
      | _ => j
    | _ => j
  | _ => j

/-- The record loop of `modify_heartrate_to_abnormal`: strip lines, skip
blanks, parse, transform; a malformed line fails with `ValueError`.
Record `r` uses the draw sub-source `draw r`. -/
def modifyLines (draw : ℕ → ℕ → ℕ) (lo hi : ℤ) (r : ℕ) : List Chars → Option (List Json)
  | [] => some []
  | line :: rest =>
    let l := stripChars line
    if l = [] then modifyLines draw lo hi r rest
    else
      match json_loads l with
      | Option.none => Option.none
      | some j =>
        (modifyLines draw lo hi (r + 1) rest).map (modify_heartrate_record (draw r) lo hi j :: ·)

/-- `modify_heartrate_to_abnormal` end to end: precondition check first,
then missing-file check, then the record loop, then the written output
file.  The `Except.ok` value is the content written to the output path;
every `Except.error` path writes nothing. -/
def modify_heartrate_to_abnormal (draw : ℕ → ℕ → ℕ) (lo hi : ℤ)
    (input : Option Chars) : Except String Chars :=
  if lo ≥ hi then Except.error "min_hr must be less than max_hr"
  else
    match input with
    | Option.none => Except.error "Input file not found"
    | some content =>
      match modifyLines draw lo hi 0 (splitOnChar '\n' content) with
      | Option.none => Except.error "Invalid JSON in file"
      | some objs => Except.ok (save_jsonl_file objs)

/-! ### Helper lemmas: the resampling engine -/

/-- The C1 scenario's time series. -/
def c1TimeData : List ℚ := [0, 1, 2, 3, 4, 5, 6, 7, 8, 9, 10]

/-- The C1 scenario's input streams: time `[0..10]`, distance
`[0, 10, ..., 100]`. -/
def c1Streams : List RawStream :=
  [⟨some "time", ([0, 1, 2, 3, 4, 5, 6, 7, 8, 9, 10] : List ℚ).map PyVal.num⟩,
   ⟨some "distance", ([0, 10, 20, 30, 40, 50, 60, 70, 80, 90, 100] : List ℚ).map PyVal.num⟩]

/-- The C8 witness input: a rest-named activity with an altitude stream. -/
def c8Streams : List RawStream :=
  [⟨some "time", ([0, 1] : List ℚ).map PyVal.num⟩,
   ⟨some "altitude", ([10, 11] : List ℚ).map PyVal.num⟩]

/-- The number of comma-separated entries of a CSV string. -/
def csvEntryCount (s : Chars) : ℕ := s.count ',' + 1

/-- The C3 witness input: a heart-rate stream with a missing value. -/
def c3Streams : List RawStream :=
  [⟨some "time", ([0, 1, 2] : List ℚ).map PyVal.num⟩,
   ⟨some "heartrate", [PyVal.num 100, PyVal.none, PyVal.num 120]⟩]

/-- The compact record the pipeline produces on `c3Streams` (the missing
heart-rate value appears as the empty middle token of `"100,,120"`). -/
def c3Rec : CompactRecord :=
  ⟨"approx_1s".data, "0,1,2".data, Option.none, some "100,,120".data,
    Option.none, Option.none, Option.none⟩

/-- The quantile summary the pipeline produces on `c3Streams`. -/
def c3Q : QList :=
  [("time_s", [("5", (1 : ℚ)/10), ("25", (1 : ℚ)/2), ("50", 1), ("75", (3 : ℚ)/2),
      ("95", (19 : ℚ)/10)]),
   ("hr_bpm", [("5", 101), ("25", 105), ("50", 110), ("75", 115), ("95", 119)])]

/-- Read a numeric field (mantissa, decimals) of a JSON object. -/
def lookupNum (k : Chars) (f : JObj) : Option (ℤ × ℕ) :=
  match JObj.lookup k f with
  | some (Json.num m e) => some (m, e)
  | _ => Option.none

/-- Read a string field of a JSON object. -/
def lookupStr (k : Chars) (f : JObj) : Option Chars :=
  match JObj.lookup k f with
  | some (Json.str s) => some s
  | _ => Option.none

/-- The object value stored under a key of a JSON object value. -/
def innerObj (k : Chars) (j : Json) : JObj :=
  match JObj.lookup k (jsonFields j) with
  | some (Json.obj f) => f
  | _ => JObj.nil

/-- The C6 scenario record: `hr_bpm_csv = "140,150,160"` with a quantile
summary present. -/
def c6Sc : JObj := JObj.cons "hr_bpm_csv".data (Json.str "140,150,160".data) JObj.nil

/-- The C6 scenario record's fields. -/
def c6Rec : JObj :=
  JObj.cons "streams_compact".data (Json.obj c6Sc)
    (JObj.cons "quantiles".data
      (Json.obj (JObj.cons "hr_bpm".data (Json.obj JObj.nil) JObj.nil)) JObj.nil)

/-- The inner compact-streams object of the C7 record. -/
def c7Sc : JObj := JObj.cons "hr_bpm_csv".data (Json.str "140,150".data) JObj.nil

/-- The C7 record: heart-rate CSV `"140,150"` plus average/max scalar
fields. -/
def c7Fields : JObj :=
  JObj.cons "average_heartrate_bpm".data (Json.num 150 0)
    (JObj.cons "max_heartrate_bpm".data (Json.num 160 0)
      (JObj.cons "streams_compact".data (Json.obj c7Sc) JObj.nil))

/-- The C6 counterexample record: a heart-rate CSV with an empty middle
token. -/
def c6BadRec : JObj :=
  JObj.cons "streams_compact".data
    (Json.obj (JObj.cons "hr_bpm_csv".data (Json.str "140,,160".data) JObj.nil)) JObj.nil

/-- A number token may not be followed by a digit or a decimal point
(always satisfied after a serialized value: end of line, `,` or `}`). -/
def numStop : Chars → Prop
  | [] => True
  | c :: _ => isDigitChar c = false ∧ c ≠ '.'

mutual
/-- Fuel sufficient to parse a serialized value (one unit per
object-nesting step). -/
def jsonFuel : Json → ℕ
  | Json.obj fields => jobjFuel fields + 1
  | _ => 1
/-- Fuel sufficient to parse a serialized field list. -/
def jobjFuel : JObj → ℕ
  | JObj.nil => 1
  | JObj.cons _ v rest => max (jsonFuel v) (jobjFuel rest) + 1
end

theorem foldlMin_mem (key : ℕ → ℚ) (x : ℕ) (xs : List ℕ) :
    xs.foldl (fun best i => if key i < key best then i else best) x = x ∨
    xs.foldl (fun best i => if key i < key best then i else best) x ∈ xs := by
  induction xs generalizing x with
  | nil => exact Or.inl rfl
  | cons y ys ih =>
    simp only [List.foldl_cons]
    rcases ih (if key y < key x then y else x) with h | h
    · rw [h]
      by_cases hc : key y < key x
      · simp only [if_pos hc]
        exact Or.inr (List.mem_cons_self y ys)
      · simp only [if_neg hc]
        exact Or.inl trivial
    · exact Or.inr (List.mem_cons_of_mem y h)

theorem pyMinBy_mem (key : ℕ → ℚ) (l : List ℕ) (h : l ≠ []) : pyMinBy key l ∈ l := by
  match l with
  | [] => exact absurd rfl h
  | x :: xs =>
    rcases foldlMin_mem key x xs with h1 | h1
    · rw [pyMinBy, h1]; exact List.mem_cons_self x xs
    · exact List.mem_cons_of_mem x h1

theorem closest_idx_lt (timeData : List ℚ) (target : ℚ) (h : timeData ≠ []) :
    closest_idx timeData target < timeData.length := by
  have hne : List.range timeData.length ≠ [] := by
    simp only [ne_eq, List.range_eq_nil]
    exact fun hc => h (List.length_eq_zero.mp hc)
  have := pyMinBy_mem (fun i => |timeData.getD i 0 - target|) (List.range timeData.length) hne
  rw [closest_idx]
  exact List.mem_range.mp this

theorem dedupFirst_subset : ∀ (l seen : List ℕ), ∀ x ∈ dedupFirst seen l, x ∈ l := by
  intro l
  induction l with
  | nil => intro seen x hx; simp [dedupFirst] at hx
  | cons y ys ih =>
    intro seen x hx
    rw [dedupFirst] at hx
    by_cases hy : y ∈ seen
    · simp only [if_pos hy] at hx
      exact List.mem_cons_of_mem y (ih seen x hx)
    · simp only [if_neg hy, List.mem_cons] at hx
      rcases hx with h | h
      · exact h ▸ List.mem_cons_self y ys
      · exact List.mem_cons_of_mem y (ih (y :: seen) x h)

theorem dedupFirst_not_mem_seen : ∀ (l seen : List ℕ), ∀ x ∈ dedupFirst seen l, x ∉ seen := by
  intro l
  induction l with
  | nil => intro seen x hx; simp [dedupFirst] at hx
  | cons y ys ih =>
    intro seen x hx
    rw [dedupFirst] at hx
    by_cases hy : y ∈ seen
    · simp only [if_pos hy] at hx
      exact ih seen x hx
    · simp only [if_neg hy, List.mem_cons] at hx
      rcases hx with h | h
      · exact h ▸ hy
      · intro hs
        exact ih (y :: seen) x h (List.mem_cons_of_mem y hs)

theorem dedupFirst_nodup : ∀ (l seen : List ℕ), (dedupFirst seen l).Nodup := by
  intro l
  induction l with
  | nil => intro seen; simp [dedupFirst]
  | cons y ys ih =>
    intro seen
    rw [dedupFirst]
    by_cases hy : y ∈ seen
    · simp only [if_pos hy]; exact ih seen
    · simp only [if_neg hy]
      refine List.nodup_cons.mpr ⟨?_, ih (y :: seen)⟩
      intro hmem
      exact dedupFirst_not_mem_seen ys (y :: seen) y hmem (List.mem_cons_self y seen)

theorem build_target_times_mono : ∀ (fuel fuel' : ℕ) (c m iv : ℚ) (l : List ℚ),
    fuel ≤ fuel' → build_target_times fuel c m iv = some l →
    build_target_times fuel' c m iv = some l := by
  intro fuel
  induction fuel with
  | zero =>
    intro fuel' c m iv l _ h
    rw [build_target_times] at h
    by_cases hc : c ≤ m
    · simp [hc] at h
    · rw [if_neg hc] at h
      match fuel' with
      | 0 => rw [build_target_times, if_neg hc]; exact h
      | k' + 1 => rw [build_target_times, if_neg hc]; exact h
  | succ k ih =>
    intro fuel' c m iv l hle h
    rw [build_target_times] at h
    by_cases hc : c ≤ m
    · rw [if_pos hc] at h
      match fuel', hle with
      | k' + 1, hle =>
        rw [build_target_times, if_pos hc]
        rcases Option.map_eq_some'.mp h with ⟨l0, hl0, rfl⟩
        rw [ih k' (c + iv) m iv l0 (Nat.succ_le_succ_iff.mp hle) hl0]
        rfl
    · rw [if_neg hc] at h
      match fuel' with
      | 0 => rw [build_target_times, if_neg hc]; exact h
      | k' + 1 => rw [build_target_times, if_neg hc]; exact h

theorem build_target_times_enough (m iv : ℚ) (hiv : 0 < iv) :
    ∀ (fuel : ℕ) (c : ℚ), (⌊(m - c) / iv⌋ + 1).toNat ≤ fuel →
    (build_target_times fuel c m iv).isSome := by
  intro fuel
  induction fuel with
  | zero =>
    intro c h
    by_cases hc : c ≤ m
    · exfalso
      have hx : (0 : ℚ) ≤ (m - c) / iv := div_nonneg (sub_nonneg.mpr hc) hiv.le
      have hfl : (0 : ℤ) ≤ ⌊(m - c) / iv⌋ := Int.floor_nonneg.mpr hx
      omega
    · rw [build_target_times, if_neg hc]
      rfl
  | succ k ih =>
    intro c h
    by_cases hc : c ≤ m
    · rw [build_target_times, if_pos hc]
      have hx : (0 : ℚ) ≤ (m - c) / iv := div_nonneg (sub_nonneg.mpr hc) hiv.le
      have hfl : (0 : ℤ) ≤ ⌊(m - c) / iv⌋ := Int.floor_nonneg.mpr hx
      have hdiv : (m - (c + iv)) / iv = (m - c) / iv - 1 := by
        rw [show m - (c + iv) = (m - c) - iv by ring, sub_div, div_self hiv.ne']
      have hrec : (⌊(m - (c + iv)) / iv⌋ + 1).toNat ≤ k := by
        rw [hdiv]
        rw [show ((m - c) / iv - 1) = ((m - c) / iv + (-1 : ℤ)) by push_cast; ring]
        rw [Int.floor_add_int]
        omega
      have := ih (c + iv) hrec
      rcases Option.isSome_iff_exists.mp this with ⟨l0, hl0⟩
      rw [hl0]
      rfl
    · rw [build_target_times, if_neg hc]
      rfl

/-- C10 — For every time series and every `interval_seconds > 0`,
`_find_sampling_indices` terminates (some fuel suffices and the result is
stable under more fuel), and the returned list contains only valid
positions of the time series, each at most once. -/
theorem find_sampling_indices_terminates (t : List ℚ) (iv : ℚ) (hiv : 0 < iv) :
    ∃ fuel idxs, find_sampling_indices fuel t iv = some idxs ∧
      (∀ fuel', fuel ≤ fuel' → find_sampling_indices fuel' t iv = some idxs) ∧
      (∀ i ∈ idxs, i < t.length) ∧ idxs.Nodup := by
  by_cases ht : t = []
  · refine ⟨0, [], ?_, ?_, by simp, List.nodup_nil⟩
    · rw [find_sampling_indices, if_pos ht]
    · intro fuel' _
      rw [find_sampling_indices, if_pos ht]
  · set fuel := (⌊(t.getLastD 0 - 0) / iv⌋ + 1).toNat with hfuel
    have hsome := build_target_times_enough (t.getLastD 0) iv hiv fuel 0 (le_of_eq hfuel.symm)
    rcases Option.isSome_iff_exists.mp hsome with ⟨targets, htargets⟩
    refine ⟨fuel, dedupFirst [] (targets.map (closest_idx t)), ?_, ?_, ?_, dedupFirst_nodup _ _⟩
    · rw [find_sampling_indices, if_neg ht, htargets]
      rfl
    · intro fuel' hle
      rw [find_sampling_indices, if_neg ht,
        build_target_times_mono fuel fuel' 0 (t.getLastD 0) iv targets hle htargets]
      rfl
    · intro i hi
      have := dedupFirst_subset (targets.map (closest_idx t)) [] i hi
      rcases List.mem_map.mp this with ⟨target, _, rfl⟩
      exact closest_idx_lt t target ht

/-- C10 witness at a concrete input. -/
theorem find_sampling_indices_terminates_witness :
    ∃ fuel idxs, find_sampling_indices fuel ([0, 1] : List ℚ) 1 = some idxs ∧
      (∀ fuel', fuel ≤ fuel' → find_sampling_indices fuel' ([0, 1] : List ℚ) 1 = some idxs) ∧
      (∀ i ∈ idxs, i < ([0, 1] : List ℚ).length) ∧ idxs.Nodup :=
  find_sampling_indices_terminates [0, 1] 1 one_pos

/-- C5 (amended) — For every non-empty rebased time series whose last
element is nonnegative, and every interval strictly larger than that last
observed time, `_find_sampling_indices` (with any fuel) returns exactly
one sample index. -/
theorem one_sample_when_interval_exceeds_duration (t : List ℚ) (iv : ℚ) (fuel : ℕ)
    (h1 : t ≠ []) (h2 : t.headD 0 = 0) (h3 : 0 ≤ t.getLastD 0) (h4 : t.getLastD 0 < iv)
    (h5 : 1 ≤ fuel) :
    ∃ i, i < t.length ∧ find_sampling_indices fuel t iv = some [i] := by
  refine ⟨closest_idx t 0, closest_idx_lt t 0 h1, ?_⟩
  rw [find_sampling_indices, if_neg h1]
  match fuel, h5 with
  | k + 1, _ =>
    rw [build_target_times, if_pos h3]
    have hstop : build_target_times k (0 + iv) (t.getLastD 0) iv = some [] := by
      match k with
      | 0 => rw [build_target_times, if_neg (by linarith)]
      | k' + 1 => rw [build_target_times, if_neg (by linarith)]
    rw [hstop]
    simp [dedupFirst]

/-- C5 witness at a concrete input. -/
theorem one_sample_when_interval_exceeds_duration_witness :
    ∃ i, i < ([0, 3] : List ℚ).length ∧ find_sampling_indices 5 [0, 3] 4 = some [i] :=
  one_sample_when_interval_exceeds_duration [0, 3] 4 5 (by simp)
    (of_decide_eq_true (by with_unfolding_all rfl))
    (of_decide_eq_true (by with_unfolding_all rfl))
    (of_decide_eq_true (by with_unfolding_all rfl))
    (by simp)

set_option maxRecDepth 100000 in
/-- C5 counterexample — `[0, -5]` is the rebasing of the time series
`[10, 5]`; it is non-empty, the interval 1 is strictly larger than its
last observed time -5, yet `_find_sampling_indices` returns zero sample
indices, not one. -/
theorem c5_counterexample :
    ([10, 5] : List ℚ).map (fun x => x - 10) = [0, -5] ∧
    ([0, -5] : List ℚ) ≠ [] ∧
    ([0, -5] : List ℚ).headD 0 = 0 ∧
    ([0, -5] : List ℚ).getLastD 0 < 1 ∧
    find_sampling_indices 10 [0, -5] 1 = some [] :=
  of_decide_eq_true (by with_unfolding_all rfl)

/-! ### The moving filter (C2) -/

/-- C2 (amended) — For every StreamSet containing a moving stream in which
every value is falsy and at least one value is meaningful (not `None` and
not `""`), `_filter_by_moving` returns the empty StreamSet.  (When every
moving value is `None`/`""` the StreamSet passes through unchanged
instead; see the counterexample.) -/
theorem filter_by_moving_all_falsy (d : StreamDict) (mv : List PyVal)
    (hm : dictGet "moving" d = some mv)
    (hmean : mv.any meaningful = true)
    (hfal : ∀ v ∈ mv, truthy v = false) :
    filter_by_moving d = [] := by
  have hval : ((List.range mv.length).filter fun i => truthy (mv.getD i PyVal.none)) = [] := by
    apply List.filter_eq_nil_iff.mpr
    intro i hi
    have hlt := List.mem_range.mp hi
    have hmem : mv.getD i PyVal.none ∈ mv := by
      rw [List.getD_eq_getElem mv PyVal.none hlt]
      exact List.getElem_mem hlt
    show ¬ truthy (mv.getD i PyVal.none) = true
    rw [hfal _ hmem]
    simp
  rw [filter_by_moving, hm]
  simp only [hmean, not_true_eq_false, if_false, hval, ite_true, if_pos]

/-- C2 witness at a concrete input: an all-`False` moving stream collapses
the StreamSet. -/
theorem filter_by_moving_all_falsy_witness :
    filter_by_moving [("time", [PyVal.num 1]), ("moving", [PyVal.pybool false])] = [] :=
  filter_by_moving_all_falsy _ [PyVal.pybool false]
    (of_decide_eq_true (by with_unfolding_all rfl))
    (of_decide_eq_true (by with_unfolding_all rfl))
    (of_decide_eq_true (by with_unfolding_all rfl))

set_option maxRecDepth 100000 in
/-- C2 counterexample — a StreamSet whose moving stream is `[None]`
(every value falsy) is returned unchanged, not collapsed to empty. -/
theorem c2_counterexample :
    (∀ v ∈ [PyVal.none], truthy v = false) ∧
    filter_by_moving [("time", [PyVal.num 1]), ("moving", [PyVal.none])] =
      [("time", [PyVal.num 1]), ("moving", [PyVal.none])] ∧
    ([("time", [PyVal.num 1]), ("moving", [PyVal.none])] : StreamDict) ≠ [] :=
  of_decide_eq_true (by with_unfolding_all rfl)

/-! ### Per-sample pace (C1) -/

theorem calculate_pace_values_getD (st : List ℚ) (sd : List (Option ℚ)) (i : ℕ)
    (h : i < st.length) :
    (calculate_pace_values st sd).getD i [] = paceEntryAt st sd i := by
  rw [calculate_pace_values]
  rw [List.getD_eq_getElem _ _ (by simpa using h)]
  rw [List.getElem_map]
  congr 1
  exact List.getElem_range _ _

theorem paceEntryAt_pos (st : List ℚ) (sd : List (Option ℚ)) (i : ℕ) (h : 0 < i) :
    paceEntryAt st sd i =
      paceToken (st.getD i 0 - st.getD (i - 1) 0)
        (sd.getD i Option.none) (sd.getD (i - 1) Option.none) := by
  rw [paceEntryAt, if_neg (by omega)]
  cases hc : sd.getD i Option.none with
  | none => cases hp : sd.getD (i - 1) Option.none with
    | none => simp [paceToken, hc, hp]
    | some b => simp [paceToken, hc, hp]
  | some a => cases hp : sd.getD (i - 1) Option.none with
    | none => simp [paceToken, hc, hp]
    | some b => simp [paceToken, hc, hp]

theorem paceEntryAt_zero (st : List ℚ) (sd : List (Option ℚ)) :
    paceEntryAt st sd 0 =
      if 1 < st.length then
        paceToken (st.getD 1 0 - st.getD 0 0) (sd.getD 1 Option.none) (sd.getD 0 Option.none)
      else [] := by
  rw [paceEntryAt, if_pos rfl]
  by_cases hl : 1 < st.length
  · rw [if_pos hl]
    cases hc : sd.getD 0 Option.none with
    | none => cases hp : sd.getD 1 Option.none with
      | none => simp [paceToken, hc, hp, hl]
      | some b => simp [paceToken, hc, hp, hl]
    | some a => cases hp : sd.getD 1 Option.none with
      | none => simp [paceToken, hc, hp, hl]
      | some b => simp [paceToken, hc, hp, hl]
  · rw [if_neg hl]
    simp [hl]

set_option maxRecDepth 1000000 in
/-- C1 — On the scenario input (times `[0..10]`, distances
`[0,10,...,100]`, interval 5 s) the resampling engine selects exactly the
indices 0, 5, 10, the record's `time_s_csv` is `"0,5,10"` and its
`pace_s_per_km_csv` begins with `"100"`; and in general every sampled
position `i > 0` gets its pace from the time/distance deltas to the
previous sampled point while position 0 uses the deltas to the next
sampled point. -/
theorem resampling_scenario_and_pace_rule :
    find_sampling_indices 10 c1TimeData 5 = some [0, 5, 10] ∧
    ((sample_streams_common 10 c1Streams 5 true true true).map fun p => p.1.time_s_csv)
      = some "0,5,10".data ∧
    ((sample_streams_common 10 c1Streams 5 true true true).map fun p =>
        startsWithChars "100".data (p.1.pace_s_per_km_csv.getD [])) = some true ∧
    (∀ st sd i, 0 < i → i < st.length →
      (calculate_pace_values st sd).getD i [] =
        paceToken (st.getD i 0 - st.getD (i - 1) 0)
          (sd.getD i Option.none) (sd.getD (i - 1) Option.none)) ∧
    (∀ st sd, st ≠ [] →
      (calculate_pace_values st sd).getD 0 [] =
        if 1 < st.length then
          paceToken (st.getD 1 0 - st.getD 0 0) (sd.getD 1 Option.none) (sd.getD 0 Option.none)
        else []) := by
  refine ⟨?_, ?_, ?_, ?_, ?_⟩
  · exact of_decide_eq_true (by with_unfolding_all rfl)
  · exact of_decide_eq_true (by with_unfolding_all rfl)
  · exact of_decide_eq_true (by with_unfolding_all rfl)
  · intro st sd i hi hlen
    rw [calculate_pace_values_getD st sd i hlen]
    exact paceEntryAt_pos st sd i hi
  · intro st sd hne
    rw [calculate_pace_values_getD st sd 0 (List.length_pos.mpr hne)]
    exact paceEntryAt_zero st sd

/-! ### Rest-activity policy (C8) -/

theorem dictGet_dictPop (k : String) (d : List (String × α)) :
    dictGet k (dictPop k d) = Option.none := by
  induction d with
  | nil => rfl
  | cons kv rest ih =>
    obtain ⟨k1, v1⟩ := kv
    rw [dictPop, List.filter_cons]
    by_cases h : k1 = k
    · rw [if_neg (by simp [h])]
      exact ih
    · rw [if_pos (by simp [h])]
      show dictGet k ((k1, v1) :: dictPop k rest) = Option.none
      rw [dictGet, if_neg h]
      exact ih

theorem dictGet_qPop (k : String) (q : QList) :
    dictGet k (qPop k q) = Option.none :=
  dictGet_dictPop k q

/-- C8 — For every activity whose name indicates a rest activity, the
assembled record's compact streams carry no `alt_m_csv` entry and its
quantile summary no `altitude_m` entry, whatever the input streams. -/
theorem rest_activity_no_altitude (fuel : ℕ) (name : Option Chars)
    (sd : List RawStream) (iv : ℚ) (c : CompactRecord) (q : QList)
    (hrest : is_rest_activity name = true)
    (h : create_activity_streams fuel name sd iv = some (c, q)) :
    c.alt_m_csv = Option.none ∧ dictGet "altitude_m" q = Option.none := by
  by_cases hsd : sd = []
  · rw [create_activity_streams, if_pos hsd] at h
    exact absurd h (by simp)
  · simp only [create_activity_streams, if_neg hsd] at h
    cases hs : sample_streams_common fuel sd iv (is_running_activity name)
        (is_running_activity name) (is_running_activity name) with
    | none =>
      rw [hs] at h
      exact absurd h (by simp)
    | some cq =>
      obtain ⟨c0, q0⟩ := cq
      rw [hs] at h
      simp only [hrest, if_true, ite_true, Option.some.injEq, Prod.mk.injEq] at h
      obtain ⟨hc, hq⟩ := h
      subst hc
      subst hq
      exact ⟨rfl, dictGet_qPop _ _⟩

set_option maxRecDepth 1000000 in
/-- C8 witness at a concrete input. -/
theorem rest_activity_no_altitude_witness :
    (⟨"approx_5s".data, "0".data, Option.none, Option.none, Option.none,
        Option.none, Option.none⟩ : CompactRecord).alt_m_csv = Option.none ∧
    dictGet "altitude_m"
      ([("time_s", [("5", (1 : ℚ)/20), ("25", (1 : ℚ)/4), ("50", (1 : ℚ)/2),
          ("75", (3 : ℚ)/4), ("95", (19 : ℚ)/20)])] : QList) = Option.none :=
  rest_activity_no_altitude 5 (some "Rest 12 (Apple JD)".data) c8Streams 5 _ _
    (of_decide_eq_true (by with_unfolding_all rfl))
    (of_decide_eq_true (by with_unfolding_all rfl))

/-! ### The `min_hr >= max_hr` precondition (C9) -/

/-- C9 — `modify_heartrate_to_abnormal` with `min_hr >= max_hr` fails at
the precondition check with the `ValueError` message, before reading any
record (the input file is not even consulted), and its only output is the
error: no output content is produced. -/
theorem randomize_hr_precondition (draw : ℕ → ℕ → ℕ) (lo hi : ℤ)
    (input : Option Chars) (h : lo ≥ hi) :
    modify_heartrate_to_abnormal draw lo hi input =
      Except.error "min_hr must be less than max_hr" := by
  rw [modify_heartrate_to_abnormal.eq_def, if_pos h]

/-- C9 witness: the precondition error fires even on a missing input file
(checked before the file-not-found path). -/
theorem randomize_hr_precondition_witness :
    modify_heartrate_to_abnormal (fun _ _ => 0) 240 210 Option.none =
      Except.error "min_hr must be less than max_hr" :=
  randomize_hr_precondition (fun _ _ => 0) 240 210 Option.none (by norm_num)

/-! ### Token counting for the CSV alignment invariant (C3) -/

theorem natDigitsAux_forall (P : Char → Prop) (hP : ∀ d, P (digitChar d)) :
    ∀ (fuel n : ℕ) (acc : Chars), (∀ c ∈ acc, P c) →
    ∀ c ∈ natDigitsAux fuel n acc, P c := by
  intro fuel
  induction fuel with
  | zero => intro n acc hacc c hc; exact hacc c hc
  | succ k ih =>
    intro n acc hacc c hc
    rw [natDigitsAux] at hc
    by_cases hn : n < 10
    · rw [if_pos hn] at hc
      rcases List.mem_cons.mp hc with h | h
      · exact h ▸ hP n
      · exact hacc c h
    · rw [if_neg hn] at hc
      refine ih (n / 10) (digitChar (n % 10) :: acc) ?_ c hc
      intro c' hc'
      rcases List.mem_cons.mp hc' with h | h
      · exact h ▸ hP (n % 10)
      · exact hacc c' h

theorem digitChar_toNat (d : ℕ) : (digitChar d).toNat = 48 + d % 10 := by
  rw [digitChar]
  have h : d % 10 < 10 := Nat.mod_lt d (by norm_num)
  set k := d % 10 with hk
  interval_cases k <;> rfl

theorem natStr_digits (n : ℕ) : ∀ c ∈ natStr n, 48 ≤ c.toNat ∧ c.toNat ≤ 57 := by
  refine natDigitsAux_forall _ ?_ (n + 1) n [] (by simp)
  intro d
  rw [digitChar_toNat]
  have : d % 10 < 10 := Nat.mod_lt d (by norm_num)
  omega

theorem comma_not_mem_natStr (n : ℕ) : ',' ∉ natStr n := by
  intro h
  have hd := natStr_digits n ',' h
  rw [show (',').toNat = 44 from rfl] at hd
  omega

theorem comma_not_mem_intStr (i : ℤ) : ',' ∉ intStr i := by
  rw [intStr]
  by_cases h : i < 0
  · rw [if_pos h]
    intro hc
    rcases List.mem_cons.mp hc with h' | h'
    · exact absurd h'.symm (by decide)
    · exact comma_not_mem_natStr _ h'
  · rw [if_neg h]
    exact comma_not_mem_natStr _

theorem comma_not_mem_padLeft (e : ℕ) (s : Chars) (h : ',' ∉ s) :
    ',' ∉ padLeft e s := by
  rw [padLeft]
  intro hc
  rcases List.mem_append.mp hc with h' | h'
  · have := List.eq_of_mem_replicate h'
    exact absurd this (by decide)
  · exact h h'

theorem comma_not_mem_format2f (q : ℚ) : ',' ∉ format2f q := by
  rw [format2f]
  intro hc
  rcases List.mem_append.mp hc with h' | h'
  · rcases List.mem_append.mp h' with h2 | h2
    · by_cases hs : pyRound (q * 100) < 0
      · rw [if_pos hs] at h2
        rcases List.mem_cons.mp h2 with h3 | h3
        · exact absurd h3.symm (by decide)
        · simp at h3
      · rw [if_neg hs] at h2
        simp at h2
    · exact comma_not_mem_natStr _ h2
  · rcases List.mem_cons.mp h' with h2 | h2
    · exact absurd h2.symm (by decide)
    · exact comma_not_mem_padLeft _ _ (comma_not_mem_natStr _) h2

theorem joinComma_count (ts : List Chars) (hts : ts ≠ [])
    (hc : ∀ t ∈ ts, ',' ∉ t) : (joinComma ts).count ',' = ts.length - 1 := by
  induction ts with
  | nil => exact absurd rfl hts
  | cons x rest ih =>
    match rest with
    | [] =>
      rw [joinComma]
      have := hc x (List.mem_cons_self x [])
      simp [List.count_eq_zero.mpr this]
    | y :: rest' =>
      rw [joinComma, List.count_append]
      have hx := hc x (List.mem_cons_self x _)
      have hrec := ih (by simp) (fun t ht => hc t (List.mem_cons_of_mem x ht))
      rw [List.count_eq_zero.mpr hx]
      rw [List.count_cons]
      rw [hrec]
      simp

theorem csvEntryCount_joinComma (ts : List Chars) (hts : ts ≠ [])
    (hc : ∀ t ∈ ts, ',' ∉ t) : csvEntryCount (joinComma ts) = ts.length := by
  rw [csvEntryCount, joinComma_count ts hts hc]
  have : 0 < ts.length := List.length_pos.mpr hts
  omega

theorem sampledTokens_length (vals : List (Option ℚ)) (fmt : ℚ → Chars) :
    (sampledTokens vals fmt).length = vals.length := by
  rw [sampledTokens, List.length_map]

theorem sampledTokens_comma_free (vals : List (Option ℚ)) (fmt : ℚ → Chars)
    (hf : ∀ q, ',' ∉ fmt q) : ∀ t ∈ sampledTokens vals fmt, ',' ∉ t := by
  intro t ht
  rcases List.mem_map.mp ht with ⟨v, _, rfl⟩
  cases v with
  | none => simp
  | some q => exact hf q

theorem sample_stream_data_length (data : List PyVal) (idxs : List ℕ) :
    (sample_stream_data data idxs).length = idxs.length := by
  rw [sample_stream_data, List.length_map]

theorem paceEntryAt_comma_free (st : List ℚ) (sd : List (Option ℚ)) (i : ℕ) :
    ',' ∉ paceEntryAt st sd i := by
  simp only [paceEntryAt]
  split_ifs <;> simp [comma_not_mem_intStr]

theorem calculate_pace_values_length (st : List ℚ) (sd : List (Option ℚ)) :
    (calculate_pace_values st sd).length = st.length := by
  rw [calculate_pace_values, List.length_map, List.length_range]

theorem calculate_pace_values_comma_free (st : List ℚ) (sd : List (Option ℚ)) :
    ∀ t ∈ calculate_pace_values st sd, ',' ∉ t := by
  intro t ht
  rcases List.mem_map.mp ht with ⟨i, _, rfl⟩
  exact paceEntryAt_comma_free st sd i

theorem sampledTokens_missing (vals : List (Option ℚ)) (fmt : ℚ → Chars) (i : ℕ)
    (h : i < vals.length) (hv : vals.getD i Option.none = Option.none) :
    (sampledTokens vals fmt).getD i ['x'] = [] := by
  rw [sampledTokens]
  rw [List.getD_eq_getElem _ _ (by simpa using h)]
  rw [List.getElem_map]
  rw [List.getD_eq_getElem _ _ h] at hv
  rw [hv]

theorem defaultFmt_comma_free (q : ℚ) : ',' ∉ defaultFmt q :=
  comma_not_mem_intStr _

theorem csvEntryCount_format (vals : List (Option ℚ)) (fmt : ℚ → Chars)
    (hne : vals ≠ []) (hf : ∀ q, ',' ∉ fmt q) :
    csvEntryCount (format_sampled_values vals fmt) = vals.length := by
  have h1 : sampledTokens vals fmt ≠ [] := by
    intro hc
    have h2 := sampledTokens_length vals fmt
    rw [hc] at h2
    exact hne (List.length_eq_zero.mp h2.symm)
  rw [format_sampled_values,
    csvEntryCount_joinComma _ h1 (sampledTokens_comma_free vals fmt hf),
    sampledTokens_length]

theorem csvEntryCount_pace (st : List ℚ) (sd : List (Option ℚ)) (hne : st ≠ []) :
    csvEntryCount (joinComma (calculate_pace_values st sd)) = st.length := by
  have h1 : calculate_pace_values st sd ≠ [] := by
    intro hc
    have h2 := calculate_pace_values_length st sd
    rw [hc] at h2
    exact hne (List.length_eq_zero.mp h2.symm)
  rw [csvEntryCount_joinComma _ h1 (calculate_pace_values_comma_free st sd),
    calculate_pace_values_length]

theorem csvEntryCount_time (ts : List ℚ) (hne : ts ≠ []) :
    csvEntryCount (joinComma (ts.map fun t => intStr (pyRound t))) = ts.length := by
  have h1 : ts.map (fun t => intStr (pyRound t)) ≠ [] := by
    simpa using hne
  have h2 : ∀ t ∈ ts.map (fun t => intStr (pyRound t)), ',' ∉ t := by
    intro t ht
    rcases List.mem_map.mp ht with ⟨v, _, rfl⟩
    exact comma_not_mem_intStr _
  rw [csvEntryCount_joinComma _ h1 h2, List.length_map]

/-- C3 — Whenever the sampling pipeline produces a non-empty compact
record, every present `_csv` field of the record has the same number of
comma-separated entries, one per de-duplicated resample index; and a
missing value at a resample point appears as an empty token rather than a
dropped one. -/
theorem csv_fields_aligned (fuel : ℕ) (sd : List RawStream) (iv : ℚ)
    (fm ip ivel : Bool) (rec : CompactRecord) (q : QList)
    (h : sample_streams_common fuel sd iv fm ip ivel = some (rec, q)) :
    (∃ idxs, pipeline_indices fuel sd iv fm = some idxs ∧ idxs ≠ [] ∧
      csvEntryCount rec.time_s_csv = idxs.length ∧
      (∀ s, rec.pace_s_per_km_csv = some s → csvEntryCount s = idxs.length) ∧
      (∀ s, rec.hr_bpm_csv = some s → csvEntryCount s = idxs.length) ∧
      (∀ s, rec.alt_m_csv = some s → csvEntryCount s = idxs.length) ∧
      (∀ s, rec.velocity_smooth_ms_csv = some s → csvEntryCount s = idxs.length) ∧
      (∀ s, rec.cadence_spm_csv = some s → csvEntryCount s = idxs.length)) ∧
    (∀ (vals : List (Option ℚ)) (fmt : ℚ → Chars) (i : ℕ), i < vals.length →
      vals.getD i Option.none = Option.none →
      (sampledTokens vals fmt).getD i ['x'] = []) := by
  refine ⟨?_, fun vals fmt i hi hv => sampledTokens_missing vals fmt i hi hv⟩
  cases hn : normalize_streams sd fm with
  | none =>
    rw [sample_streams_common.eq_def, hn] at h
    exact absurd h (by simp)
  | some dt =>
    obtain ⟨d, timeData⟩ := dt
    cases hf : find_sampling_indices fuel timeData iv with
    | none =>
      rw [sample_streams_common.eq_def, hn] at h
      simp only [hf] at h
      exact absurd h (by simp)
    | some idxs =>
      match idxs, hf with
      | [], hf =>
        rw [sample_streams_common.eq_def, hn] at h
        simp only [hf] at h
        exact absurd h (by simp)
      | i0 :: rest, hf =>
        rw [sample_streams_common.eq_def, hn] at h
        simp only [hf, Option.some.injEq, Prod.mk.injEq] at h
        obtain ⟨hA, hB⟩ := h
        have htime : rec.time_s_csv =
            joinComma (((i0 :: rest).map fun i => timeData.getD i 0).map
              fun t => intStr (pyRound t)) := by
          rw [← hA]
        have hpace : rec.pace_s_per_km_csv =
            (if ip ∧ hasKey "distance" d then
              some (joinComma (calculate_pace_values
                ((i0 :: rest).map fun i => timeData.getD i 0)
                (sample_stream_data ((dictGet "distance" d).getD []) (i0 :: rest))))
            else Option.none) := by
          rw [← hA]
        have hhr : rec.hr_bpm_csv =
            (if hasKey "heartrate" d then
              some (format_sampled_values
                (sample_stream_data ((dictGet "heartrate" d).getD []) (i0 :: rest)) defaultFmt)
            else Option.none) := by
          rw [← hA]
        have halt : rec.alt_m_csv =
            (if hasKey "altitude" d then
              some (format_sampled_values
                (sample_stream_data ((dictGet "altitude" d).getD []) (i0 :: rest)) defaultFmt)
            else Option.none) := by
          rw [← hA]
        have hvel : rec.velocity_smooth_ms_csv =
            (if ivel ∧ hasKey "velocity_smooth" d then
              some (format_sampled_values
                (sample_stream_data ((dictGet "velocity_smooth" d).getD []) (i0 :: rest)) format2f)
            else Option.none) := by
          rw [← hA]
        have hcad : rec.cadence_spm_csv =
            (if hasKey "cadence" d then
              some (format_sampled_values
                (sample_stream_data ((dictGet "cadence" d).getD []) (i0 :: rest)) defaultFmt)
            else Option.none) := by
          rw [← hA]
        refine ⟨i0 :: rest, ?_, by simp, ?_, ?_, ?_, ?_, ?_, ?_⟩
        · rw [pipeline_indices.eq_def]
          simp only [hn]
          exact hf
        · rw [htime, csvEntryCount_time _ (by simp), List.length_map]
        · intro s hs
          rw [hpace] at hs
          split at hs
          · rw [Option.some_inj] at hs
            rw [← hs, csvEntryCount_pace _ _ (by simp), List.length_map]
          · exact absurd hs (by simp)
        · intro s hs
          rw [hhr] at hs
          split at hs
          · rw [Option.some_inj] at hs
            rw [← hs, csvEntryCount_format _ _ (by simp [sample_stream_data]) defaultFmt_comma_free,
              sample_stream_data_length]
          · exact absurd hs (by simp)
        · intro s hs
          rw [halt] at hs
          split at hs
          · rw [Option.some_inj] at hs
            rw [← hs, csvEntryCount_format _ _ (by simp [sample_stream_data]) defaultFmt_comma_free,
              sample_stream_data_length]
          · exact absurd hs (by simp)
        · intro s hs
          rw [hvel] at hs
          split at hs
          · rw [Option.some_inj] at hs
            rw [← hs, csvEntryCount_format _ _ (by simp [sample_stream_data]) comma_not_mem_format2f,
              sample_stream_data_length]
          · exact absurd hs (by simp)
        · intro s hs
          rw [hcad] at hs
          split at hs
          · rw [Option.some_inj] at hs
            rw [← hs, csvEntryCount_format _ _ (by simp [sample_stream_data]) defaultFmt_comma_free,
              sample_stream_data_length]
          · exact absurd hs (by simp)

set_option maxRecDepth 1000000 in
/-- C3 witness at a concrete input. -/
theorem csv_fields_aligned_witness :
    (∃ idxs, pipeline_indices 5 c3Streams 1 false = some idxs ∧ idxs ≠ [] ∧
      csvEntryCount c3Rec.time_s_csv = idxs.length ∧
      (∀ s, c3Rec.pace_s_per_km_csv = some s → csvEntryCount s = idxs.length) ∧
      (∀ s, c3Rec.hr_bpm_csv = some s → csvEntryCount s = idxs.length) ∧
      (∀ s, c3Rec.alt_m_csv = some s → csvEntryCount s = idxs.length) ∧
      (∀ s, c3Rec.velocity_smooth_ms_csv = some s → csvEntryCount s = idxs.length) ∧
      (∀ s, c3Rec.cadence_spm_csv = some s → csvEntryCount s = idxs.length)) ∧
    (∀ (vals : List (Option ℚ)) (fmt : ℚ → Chars) (i : ℕ), i < vals.length →
      vals.getD i Option.none = Option.none →
      (sampledTokens vals fmt).getD i ['x'] = []) :=
  csv_fields_aligned 5 c3Streams 1 false false false c3Rec c3Q
    (of_decide_eq_true (by with_unfolding_all rfl))

/-! ### JSON object lemmas and bounds for the heart-rate utility (C6, C7) -/

theorem JObj.lookup_set_self (k : Chars) (v : Json) :
    ∀ (f : JObj), JObj.lookup k (JObj.set k v f) = some v
  | JObj.nil => by rw [JObj.set, JObj.lookup, if_pos rfl]
  | JObj.cons k1 v1 rest => by
    rw [JObj.set]
    by_cases h : k1 = k
    · rw [if_pos h, JObj.lookup, if_pos rfl]
    · rw [if_neg h, JObj.lookup, if_neg h]
      exact JObj.lookup_set_self k v rest

theorem JObj.lookup_set_other (k k' : Chars) (hkk : k' ≠ k) (v : Json) :
    ∀ (f : JObj), JObj.lookup k (JObj.set k' v f) = JObj.lookup k f
  | JObj.nil => by
    rw [JObj.set]
    simp only [JObj.lookup]
    rw [if_neg hkk]
  | JObj.cons k1 v1 rest => by
    rw [JObj.set]
    by_cases h : k1 = k'
    · rw [if_pos h, JObj.lookup, if_neg hkk, JObj.lookup, if_neg (h ▸ hkk)]
    · rw [if_neg h, JObj.lookup, JObj.lookup]
      by_cases h2 : k1 = k
      · rw [if_pos h2, if_pos h2]
      · rw [if_neg h2, if_neg h2]
        exact JObj.lookup_set_other k k' hkk v rest

theorem pyRandint_mem (lo hi : ℤ) (h : lo ≤ hi) (d : ℕ) :
    lo ≤ pyRandint lo hi d ∧ pyRandint lo hi d ≤ hi := by
  rw [pyRandint]
  have hk2 : ((hi - lo + 1).toNat : ℤ) = hi - lo + 1 := Int.toNat_of_nonneg (by omega)
  have hkpos : 0 < (hi - lo + 1).toNat := by omega
  have hmod : d % (hi - lo + 1).toNat < (hi - lo + 1).toNat := Nat.mod_lt d hkpos
  have hcast : ((d % (hi - lo + 1).toNat : ℕ) : ℤ) < ((hi - lo + 1).toNat : ℤ) := by
    exact_mod_cast hmod
  have hnn : (0 : ℤ) ≤ ((d % (hi - lo + 1).toNat : ℕ) : ℤ) := Int.natCast_nonneg _
  omega

theorem pyRound_bounds (x : ℚ) (a b : ℤ) (ha : (a : ℚ) ≤ x) (hb : x ≤ (b : ℚ)) :
    a ≤ pyRound x ∧ pyRound x ≤ b := by
  have hfl : a ≤ ⌊x⌋ := Int.le_floor.mpr ha
  have hfu : ⌊x⌋ ≤ b := by
    calc ⌊x⌋ ≤ ⌊(b : ℚ)⌋ := Int.floor_le_floor hb
    _ = b := Int.floor_intCast b
  have hxfl : (⌊x⌋ : ℚ) ≤ x := Int.floor_le x
  rw [pyRound]
  split_ifs with h1 h2 h3
  · exact ⟨hfl, hfu⟩
  · refine ⟨by omega, ?_⟩
    have hlt : ⌊x⌋ < b := by
      rcases lt_or_eq_of_le hfu with h' | h'
      · exact h'
      · exfalso
        have hx : x = (b : ℚ) := le_antisymm hb (by rw [← h']; exact hxfl)
        have hz : x - (⌊x⌋ : ℚ) = 0 := by rw [h', hx]; ring
        linarith
    omega
  · refine ⟨by omega, ?_⟩
    have hlt : ⌊x⌋ < b := by
      rcases lt_or_eq_of_le hfu with h' | h'
      · exact h'
      · exfalso
        have hx : x = (b : ℚ) := le_antisymm hb (by rw [← h']; exact hxfl)
        have hz : x - (⌊x⌋ : ℚ) = 0 := by rw [h', hx]; ring
        linarith [not_lt.mp h1]
    omega
  · refine ⟨by omega, ?_⟩
    have hlt : ⌊x⌋ < b := by
      rcases lt_or_eq_of_le hfu with h' | h'
      · exact h'
      · exfalso
        have hx : x = (b : ℚ) := le_antisymm hb (by rw [← h']; exact hxfl)
        have hz : x - (⌊x⌋ : ℚ) = 0 := by rw [h', hx]; ring
        linarith [not_lt.mp h1]
    omega

theorem percentile_three (vals : List ℚ) (h : vals.length = 3) :
    percentile vals 50 = (List.insertionSort (· ≤ ·) vals).getD 1 0 := by
  have hlen : (List.insertionSort (· ≤ ·) vals).length = 3 := by
    rw [List.length_insertionSort]
    exact h
  have hrank : (50 : ℚ) / 100 * ((((List.insertionSort (· ≤ ·) vals).length : ℚ)) - 1) = 1 := by
    rw [hlen]
    norm_num
  simp only [percentile, hrank]
  norm_num

theorem sorted_getD_mem (vals : List ℚ) (i : ℕ)
    (h : i < (List.insertionSort (· ≤ ·) vals).length) :
    (List.insertionSort (· ≤ ·) vals).getD i 0 ∈ vals := by
  rw [List.getD_eq_getElem _ _ h]
  exact (List.perm_insertionSort (· ≤ ·) vals).mem_iff.mp (List.getElem_mem h)

theorem percentileObj_lookup_50 (vals : List ℚ) :
    JObj.lookup "50".data (percentileObj vals) =
      some (Json.num (pyRound (percentile vals 50 * 1000000)) 6) := by
  rw [percentileObj, QUANTILE_LEVELS]
  simp only [List.map_cons, List.map_nil, List.foldr_cons, List.foldr_nil]
  rw [JObj.lookup, if_neg (by decide), JObj.lookup, if_neg (by decide),
    JObj.lookup, if_pos (by decide)]
  norm_num

theorem modify_heartrate_record_shape (draw : ℕ → ℕ) (lo hi : ℤ) (fields sc : JObj)
    (hrCsv : Chars)
    (hsc : JObj.lookup "streams_compact".data fields = some (Json.obj sc))
    (hhr : JObj.lookup "hr_bpm_csv".data sc = some (Json.str hrCsv))
    (hne : hrCsv ≠ [])
    (htok : newHrValues draw lo hi hrCsv ≠ []) :
    modify_heartrate_record draw lo hi (Json.obj fields) =
      Json.obj (
        let newVals := newHrValues draw lo hi hrCsv
        let sc1 := JObj.set "hr_bpm_csv".data
          (Json.str (joinComma (newVals.map intStr))) sc
        let fields1 := JObj.set "streams_compact".data (Json.obj sc1) fields
        let qf :=
          match JObj.lookup "quantiles".data fields1 with
          | some (Json.obj qf) => qf
          | _ => JObj.nil
        let qf1 := JObj.set "hr_bpm".data
          (Json.obj (percentileObj (newVals.map (fun z : ℤ => (z : ℚ))))) qf
        let fields2 := JObj.set "quantiles".data (Json.obj qf1) fields1
        let fields3 :=
          if (JObj.lookup "average_heartrate_bpm".data fields2).isSome then
            JObj.set "average_heartrate_bpm".data
              (Json.num (pyTrunc (npMean (newVals.map (fun z : ℤ => (z : ℚ))))) 0) fields2
          else fields2
        if (JObj.lookup "max_heartrate_bpm".data fields3).isSome then
          JObj.set "max_heartrate_bpm".data (Json.num (listMaxInt newVals) 0) fields3
        else fields3) := by
  rw [modify_heartrate_record.eq_def]
  simp only [hsc, hhr, if_neg hne, if_neg htok]

/-- C7 (amended) — After `modify_heartrate_to_abnormal` replaces a
record's heart-rate CSV values, a present top-level
`average_heartrate_bpm` field is overwritten with the integer-truncated
mean (`int(np.mean(...))`) of the new heart-rate values, and a present
`max_heartrate_bpm` field with their maximum; each scalar is conditioned
only on its own presence, independently of the other's. -/
theorem hr_scalar_fields_updated (draw : ℕ → ℕ) (lo hi : ℤ) (fields sc : JObj)
    (hrCsv : Chars)
    (hsc : JObj.lookup "streams_compact".data fields = some (Json.obj sc))
    (hhr : JObj.lookup "hr_bpm_csv".data sc = some (Json.str hrCsv))
    (hne : hrCsv ≠ [])
    (htok : newHrValues draw lo hi hrCsv ≠ []) :
    ((JObj.lookup "average_heartrate_bpm".data fields).isSome = true →
      JObj.lookup "average_heartrate_bpm".data
          (jsonFields (modify_heartrate_record draw lo hi (Json.obj fields))) =
        some (Json.num
          (pyTrunc (npMean ((newHrValues draw lo hi hrCsv).map (fun z : ℤ => (z : ℚ))))) 0)) ∧
    ((JObj.lookup "max_heartrate_bpm".data fields).isSome = true →
      JObj.lookup "max_heartrate_bpm".data
          (jsonFields (modify_heartrate_record draw lo hi (Json.obj fields))) =
        some (Json.num (listMaxInt (newHrValues draw lo hi hrCsv)) 0)) := by
  have eAvgQ : ∀ (v : Json) (f : JObj),
      JObj.lookup "average_heartrate_bpm".data (JObj.set "quantiles".data v f) =
        JObj.lookup "average_heartrate_bpm".data f :=
    fun v f => JObj.lookup_set_other _ _ (by decide) v f
  have eAvgSc : ∀ (v : Json) (f : JObj),
      JObj.lookup "average_heartrate_bpm".data (JObj.set "streams_compact".data v f) =
        JObj.lookup "average_heartrate_bpm".data f :=
    fun v f => JObj.lookup_set_other _ _ (by decide) v f
  have eAvgMax : ∀ (v : Json) (f : JObj),
      JObj.lookup "average_heartrate_bpm".data (JObj.set "max_heartrate_bpm".data v f) =
        JObj.lookup "average_heartrate_bpm".data f :=
    fun v f => JObj.lookup_set_other _ _ (by decide) v f
  have eMaxQ : ∀ (v : Json) (f : JObj),
      JObj.lookup "max_heartrate_bpm".data (JObj.set "quantiles".data v f) =
        JObj.lookup "max_heartrate_bpm".data f :=
    fun v f => JObj.lookup_set_other _ _ (by decide) v f
  have eMaxSc : ∀ (v : Json) (f : JObj),
      JObj.lookup "max_heartrate_bpm".data (JObj.set "streams_compact".data v f) =
        JObj.lookup "max_heartrate_bpm".data f :=
    fun v f => JObj.lookup_set_other _ _ (by decide) v f
  have eMaxAvg : ∀ (v : Json) (f : JObj),
      JObj.lookup "max_heartrate_bpm".data (JObj.set "average_heartrate_bpm".data v f) =
        JObj.lookup "max_heartrate_bpm".data f :=
    fun v f => JObj.lookup_set_other _ _ (by decide) v f
  rw [modify_heartrate_record_shape draw lo hi fields sc hrCsv hsc hhr hne htok]
  constructor
  · intro havg
    by_cases hm : (JObj.lookup "max_heartrate_bpm".data fields).isSome = true
    · simp only [jsonFields, eAvgQ, eAvgSc, eMaxQ, eMaxSc, havg, hm, if_true,
        eMaxAvg, eAvgMax, JObj.lookup_set_self]
    · have hm' : (JObj.lookup "max_heartrate_bpm".data fields).isSome = false := by
        rw [Bool.not_eq_true] at hm
        exact hm
      simp only [jsonFields, eAvgQ, eAvgSc, eMaxQ, eMaxSc, havg, if_true, eMaxAvg, hm',
        Bool.false_eq_true, ite_false, JObj.lookup_set_self]
  · intro hmax
    by_cases ha : (JObj.lookup "average_heartrate_bpm".data fields).isSome = true
    · simp only [jsonFields, eAvgQ, eAvgSc, ha, if_true, eMaxAvg, eMaxQ, eMaxSc, hmax,
        JObj.lookup_set_self]
    · have ha' : (JObj.lookup "average_heartrate_bpm".data fields).isSome = false := by
        rw [Bool.not_eq_true] at ha
        exact ha
      simp only [jsonFields, eAvgQ, eAvgSc, ha', Bool.false_eq_true, ite_false,
        eMaxQ, eMaxSc, hmax, if_true, JObj.lookup_set_self]

theorem newHrValues_length (draw : ℕ → ℕ) (lo hi : ℤ) (s : Chars) :
    (newHrValues draw lo hi s).length = (splitHrTokens s).length := by
  rw [newHrValues, List.length_mapIdx]

theorem newHrValues_bounds (draw : ℕ → ℕ) (lo hi : ℤ) (h : lo ≤ hi) (s : Chars) :
    ∀ v ∈ newHrValues draw lo hi s, lo ≤ v ∧ v ≤ hi := by
  intro v hv
  rw [newHrValues, List.mapIdx_eq_enum_map] at hv
  rcases List.mem_map.mp hv with ⟨⟨i, a⟩, _, rfl⟩
  exact pyRandint_mem lo hi h (draw i)

theorem modify_hr_general (draw : ℕ → ℕ) (lo hi : ℤ) (fields sc : JObj) (hrCsv : Chars)
    (hsc : JObj.lookup "streams_compact".data fields = some (Json.obj sc))
    (hhr : JObj.lookup "hr_bpm_csv".data sc = some (Json.str hrCsv))
    (hne : hrCsv ≠ [])
    (htok : newHrValues draw lo hi hrCsv ≠ []) :
    JObj.lookup "hr_bpm_csv".data
        (innerObj "streams_compact".data (modify_heartrate_record draw lo hi (Json.obj fields))) =
      some (Json.str (joinComma ((newHrValues draw lo hi hrCsv).map intStr))) ∧
    JObj.lookup "hr_bpm".data
        (innerObj "quantiles".data (modify_heartrate_record draw lo hi (Json.obj fields))) =
      some (Json.obj (percentileObj ((newHrValues draw lo hi hrCsv).map (fun z : ℤ => (z : ℚ))))) := by
  have eScIfMax : ∀ (c : Prop) (inst : Decidable c) (v : Json) (f : JObj),
      JObj.lookup "streams_compact".data
          (@ite _ c inst (JObj.set "max_heartrate_bpm".data v f) f) =
        JObj.lookup "streams_compact".data f := by
    intro c inst v f
    split_ifs
    · exact JObj.lookup_set_other _ _ (by decide) v f
    · rfl
  have eScIfAvg : ∀ (c : Prop) (inst : Decidable c) (v : Json) (f : JObj),
      JObj.lookup "streams_compact".data
          (@ite _ c inst (JObj.set "average_heartrate_bpm".data v f) f) =
        JObj.lookup "streams_compact".data f := by
    intro c inst v f
    split_ifs
    · exact JObj.lookup_set_other _ _ (by decide) v f
    · rfl
  have eQIfMax : ∀ (c : Prop) (inst : Decidable c) (v : Json) (f : JObj),
      JObj.lookup "quantiles".data
          (@ite _ c inst (JObj.set "max_heartrate_bpm".data v f) f) =
        JObj.lookup "quantiles".data f := by
    intro c inst v f
    split_ifs
    · exact JObj.lookup_set_other _ _ (by decide) v f
    · rfl
  have eQIfAvg : ∀ (c : Prop) (inst : Decidable c) (v : Json) (f : JObj),
      JObj.lookup "quantiles".data
          (@ite _ c inst (JObj.set "average_heartrate_bpm".data v f) f) =
        JObj.lookup "quantiles".data f := by
    intro c inst v f
    split_ifs
    · exact JObj.lookup_set_other _ _ (by decide) v f
    · rfl
  have eScQ : ∀ (v : Json) (f : JObj),
      JObj.lookup "streams_compact".data (JObj.set "quantiles".data v f) =
        JObj.lookup "streams_compact".data f :=
    fun v f => JObj.lookup_set_other _ _ (by decide) v f
  rw [modify_heartrate_record_shape draw lo hi fields sc hrCsv hsc hhr hne htok]
  constructor
  · simp only [innerObj, jsonFields, eScIfMax, eScIfAvg, eScQ, JObj.lookup_set_self]
  · simp only [innerObj, jsonFields, eQIfMax, eQIfAvg, JObj.lookup_set_self]

/-- C6 (amended) — `randomizeHeartRate` replaces each non-empty
comma-separated token of a present, non-empty heart-rate CSV field with an
independently drawn integer in `[minHr, maxHr]`; empty tokens are dropped,
so the output entry count equals the number of non-empty input tokens (the
total count is preserved exactly when no token is empty); the heart-rate
quantile summary is recomputed from the new values.  Scenario: on
`"140,150,160"` with bounds 210/240 the output has exactly 3 entries, each
in `[210, 240]`, and the recomputed median lies in `[210, 240]` (so it
comes from the new values, not the original ones). -/
theorem randomize_hr_replacement :
    (∀ (draw : ℕ → ℕ) (lo hi : ℤ) (fields sc : JObj) (hrCsv : Chars),
      lo ≤ hi →
      JObj.lookup "streams_compact".data fields = some (Json.obj sc) →
      JObj.lookup "hr_bpm_csv".data sc = some (Json.str hrCsv) →
      hrCsv ≠ [] →
      (newHrValues draw lo hi hrCsv).length = (splitHrTokens hrCsv).length ∧
      (∀ v ∈ newHrValues draw lo hi hrCsv, lo ≤ v ∧ v ≤ hi) ∧
      (newHrValues draw lo hi hrCsv ≠ [] →
        JObj.lookup "hr_bpm_csv".data
            (innerObj "streams_compact".data
              (modify_heartrate_record draw lo hi (Json.obj fields))) =
          some (Json.str (joinComma ((newHrValues draw lo hi hrCsv).map intStr))) ∧
        JObj.lookup "hr_bpm".data
            (innerObj "quantiles".data
              (modify_heartrate_record draw lo hi (Json.obj fields))) =
          some (Json.obj (percentileObj
            ((newHrValues draw lo hi hrCsv).map (fun z : ℤ => (z : ℚ))))))) ∧
    (∀ draw : ℕ → ℕ,
      (newHrValues draw 210 240 "140,150,160".data).length = 3 ∧
      (∀ v ∈ newHrValues draw 210 240 "140,150,160".data, 210 ≤ v ∧ v ≤ 240) ∧
      JObj.lookup "hr_bpm_csv".data
          (innerObj "streams_compact".data
            (modify_heartrate_record draw 210 240 (Json.obj c6Rec))) =
        some (Json.str (joinComma
          ((newHrValues draw 210 240 "140,150,160".data).map intStr))) ∧
      (∃ m, lookupNum "50".data
          (innerObj "hr_bpm".data (Json.obj
            (innerObj "quantiles".data
              (modify_heartrate_record draw 210 240 (Json.obj c6Rec))))) =
          some (m, 6) ∧ 210000000 ≤ m ∧ m ≤ 240000000)) := by
  constructor
  · intro draw lo hi fields sc hrCsv hle hsc hhr hne
    refine ⟨newHrValues_length draw lo hi hrCsv, newHrValues_bounds draw lo hi hle hrCsv, ?_⟩
    intro htok
    exact modify_hr_general draw lo hi fields sc hrCsv hsc hhr hne htok
  · intro draw
    have hlen : (newHrValues draw 210 240 "140,150,160".data).length = 3 := by
      rw [newHrValues_length]
      decide
    have hbnd := newHrValues_bounds draw 210 240 (by decide) "140,150,160".data
    have htok : newHrValues draw 210 240 "140,150,160".data ≠ [] := by
      intro hc
      rw [hc] at hlen
      simp at hlen
    have hgen := modify_hr_general draw 210 240 c6Rec c6Sc "140,150,160".data
      (by with_unfolding_all rfl)
      (by with_unfolding_all rfl)
      (by decide) htok
    refine ⟨hlen, hbnd, hgen.1, ?_⟩
    have hP : innerObj "hr_bpm".data (Json.obj
        (innerObj "quantiles".data
          (modify_heartrate_record draw 210 240 (Json.obj c6Rec)))) =
        percentileObj ((newHrValues draw 210 240 "140,150,160".data).map (fun z : ℤ => (z : ℚ))) := by
      rw [innerObj]
      simp only [jsonFields, hgen.2]
    rw [hP]
    have hvlen : ((newHrValues draw 210 240 "140,150,160".data).map (fun z : ℤ => (z : ℚ))).length = 3 := by
      rw [List.length_map, hlen]
    have hmed := percentile_three _ hvlen
    have hslen : (List.insertionSort (· ≤ ·)
        ((newHrValues draw 210 240 "140,150,160".data).map (fun z : ℤ => (z : ℚ)))).length = 3 := by
      rw [List.length_insertionSort, hvlen]
    have hmem := sorted_getD_mem
      ((newHrValues draw 210 240 "140,150,160".data).map (fun z : ℤ => (z : ℚ))) 1
      (by rw [hslen]; norm_num)
    have hvbnd : (210 : ℚ) ≤ (List.insertionSort (· ≤ ·)
          ((newHrValues draw 210 240 "140,150,160".data).map (fun z : ℤ => (z : ℚ)))).getD 1 0 ∧
        (List.insertionSort (· ≤ ·)
          ((newHrValues draw 210 240 "140,150,160".data).map (fun z : ℤ => (z : ℚ)))).getD 1 0 ≤ 240 := by
      rcases List.mem_map.mp hmem with ⟨z, hz, hzq⟩
      rcases hbnd z hz with ⟨h1, h2⟩
      rw [← hzq]
      constructor
      · exact_mod_cast h1
      · exact_mod_cast h2
    have hrb := pyRound_bounds
      (percentile ((newHrValues draw 210 240 "140,150,160".data).map (fun z : ℤ => (z : ℚ))) 50 * 1000000)
      210000000 240000000
      (by rw [hmed]; push_cast; linarith [hvbnd.1])
      (by rw [hmed]; push_cast; linarith [hvbnd.2])
    refine ⟨pyRound (percentile
      ((newHrValues draw 210 240 "140,150,160".data).map (fun z : ℤ => (z : ℚ))) 50 * 1000000),
      ?_, hrb.1, hrb.2⟩
    rw [lookupNum.eq_def, percentileObj_lookup_50]

/-- C7 witness at a concrete input. -/
theorem hr_scalar_fields_updated_witness :
    JObj.lookup "average_heartrate_bpm".data
        (jsonFields (modify_heartrate_record (fun i => i) 210 240 (Json.obj c7Fields))) =
      some (Json.num
        (pyTrunc (npMean ((newHrValues (fun i => i) 210 240 "140,150".data).map
          (fun z : ℤ => (z : ℚ))))) 0) ∧
    JObj.lookup "max_heartrate_bpm".data
        (jsonFields (modify_heartrate_record (fun i => i) 210 240 (Json.obj c7Fields))) =
      some (Json.num (listMaxInt (newHrValues (fun i => i) 210 240 "140,150".data)) 0) :=
  ⟨(hr_scalar_fields_updated (fun i => i) 210 240 c7Fields c7Sc "140,150".data
      (by with_unfolding_all rfl) (by with_unfolding_all rfl) (by decide)
      (of_decide_eq_true (by with_unfolding_all rfl))).1 (by with_unfolding_all rfl),
   (hr_scalar_fields_updated (fun i => i) 210 240 c7Fields c7Sc "140,150".data
      (by with_unfolding_all rfl) (by with_unfolding_all rfl) (by decide)
      (of_decide_eq_true (by with_unfolding_all rfl))).2 (by with_unfolding_all rfl)⟩

set_option maxRecDepth 1000000 in
/-- C7 counterexample — with draws giving the values 210 and 211, the
stored average is the truncated 210 while the mean of the new values is
210.5: the scalar is not the mean itself. -/
theorem c7_counterexample :
    newHrValues (fun i => i) 210 240 "140,150".data = [210, 211] ∧
    lookupNum "average_heartrate_bpm".data
      (jsonFields (modify_heartrate_record (fun i => i) 210 240 (Json.obj c7Fields))) =
      some (210, 0) ∧
    npMean [(210 : ℚ), 211] = 421/2 ∧
    ((210 : ℚ) ≠ 421/2) :=
  of_decide_eq_true (by with_unfolding_all rfl)

set_option maxRecDepth 1000000 in
/-- C6 counterexample — on `hr_bpm_csv = "140,,160"` (three comma-separated
entries, one empty) the rewritten field is `"210,210"` with only two
entries: the total count of comma-separated entries is not preserved, the
empty token is dropped. -/
theorem c6_counterexample :
    csvEntryCount "140,,160".data = 3 ∧
    lookupStr "hr_bpm_csv".data
      (innerObj "streams_compact".data
        (modify_heartrate_record (fun _ => 0) 210 240 (Json.obj c6BadRec))) =
      some "210,210".data ∧
    csvEntryCount "210,210".data = 2 :=
  of_decide_eq_true (by with_unfolding_all rfl)

/-! ### Round-trip of `save_jsonl_file` / `load_jsonl_file` (C4) -/

theorem natDigitsAux_append (fuel n : ℕ) :
    ∀ acc : Chars, natDigitsAux fuel n acc = natDigitsAux fuel n [] ++ acc := by
  induction fuel generalizing n with
  | zero => intro acc; rfl
  | succ k ih =>
    intro acc
    rw [natDigitsAux, natDigitsAux]
    by_cases h : n < 10
    · rw [if_pos h, if_pos h]
      rfl
    · rw [if_neg h, if_neg h, ih (n / 10), ih (n / 10) [digitChar (n % 10)],
        List.append_assoc]
      rfl

theorem natDigitsAux_fuel_irrel (m : ℕ) :
    ∀ (fuel fuel' : ℕ), m < fuel → m < fuel' →
    natDigitsAux fuel m [] = natDigitsAux fuel' m [] := by
  induction m using Nat.strong_induction_on with
  | _ m ih =>
    intro fuel fuel' hf hf'
    match fuel, fuel' with
    | a + 1, b + 1 =>
      rw [natDigitsAux, natDigitsAux]
      by_cases h : m < 10
      · rw [if_pos h, if_pos h]
      · rw [if_neg h, if_neg h, natDigitsAux_append a, natDigitsAux_append b]
        have hdiv : m / 10 < m := Nat.div_lt_self (by omega) (by norm_num)
        rw [ih (m / 10) hdiv a b (by omega) (by omega)]

theorem natStr_unfold (n : ℕ) :
    natStr n = if n < 10 then [digitChar n] else natStr (n / 10) ++ [digitChar (n % 10)] := by
  rw [natStr, natDigitsAux]
  by_cases h : n < 10
  · rw [if_pos h, if_pos h]
  · rw [if_neg h, if_neg h, natDigitsAux_append, natStr]
    have hdiv : n / 10 < n := Nat.div_lt_self (by omega) (by norm_num)
    rw [natDigitsAux_fuel_irrel (n / 10) n (n / 10 + 1) (by omega) (by omega)]

theorem digitVal_digitChar (d : ℕ) : digitVal (digitChar d) = d % 10 := by
  rw [digitVal, digitChar_toNat]
  omega

theorem digitsVal_append_singleton (l : Chars) (c : Char) :
    digitsVal (l ++ [c]) = digitsVal l * 10 + digitVal c := by
  rw [digitsVal, List.foldl_append, List.foldl_cons, List.foldl_nil, digitsVal]

theorem digitsVal_natStr (n : ℕ) : digitsVal (natStr n) = n := by
  induction n using Nat.strong_induction_on with
  | _ n ih =>
    rw [natStr_unfold]
    by_cases h : n < 10
    · rw [if_pos h, digitsVal, List.foldl_cons, List.foldl_nil, digitVal_digitChar]
      omega
    · rw [if_neg h, digitsVal_append_singleton, digitVal_digitChar]
      have hdiv : n / 10 < n := Nat.div_lt_self (by omega) (by norm_num)
      rw [ih (n / 10) hdiv]
      omega

theorem natStr_ne_nil (n : ℕ) : natStr n ≠ [] := by
  rw [natStr_unfold]
  by_cases h : n < 10
  · rw [if_pos h]; simp
  · rw [if_neg h]; simp

theorem natStr_length_le (e : ℕ) (he : 1 ≤ e) :
    ∀ n, n < 10 ^ e → (natStr n).length ≤ e := by
  induction e with
  | zero => omega
  | succ k ih =>
    intro n hn
    rw [natStr_unfold]
    by_cases h : n < 10
    · rw [if_pos h]
      simp
    · rw [if_neg h, List.length_append]
      have hk : 1 ≤ k := by
        by_contra hc
        have hk0 : k = 0 := by omega
        rw [hk0] at hn
        simp at hn
        omega
      have hdivlt : n / 10 < 10 ^ k := by
        rw [Nat.div_lt_iff_lt_mul (by norm_num : 0 < 10)]
        calc n < 10 ^ (k + 1) := hn
        _ = 10 ^ k * 10 := by ring
      have hlen := ih hk (n / 10) hdivlt
      simp only [List.length_singleton]
      omega

theorem takeWhile_append_all (p : Char → Bool) :
    ∀ (l r : Chars), (∀ c ∈ l, p c = true) → (∀ c ∈ r.take 1, p c = false) →
    (l ++ r).takeWhile p = l := by
  intro l
  induction l with
  | nil =>
    intro r _ hr
    match r with
    | [] => rfl
    | c :: rest =>
      rw [List.nil_append, List.takeWhile_cons, hr c (by simp)]
      simp
  | cons x xs ih =>
    intro r hl hr
    rw [List.cons_append, List.takeWhile_cons, hl x (by simp)]
    simp only [if_true]
    rw [ih r (fun c hc => hl c (List.mem_cons_of_mem x hc)) hr]

theorem natStr_all_digits (n : ℕ) : ∀ c ∈ natStr n, isDigitChar c = true := by
  intro c hc
  have := natStr_digits n c hc
  rw [isDigitChar]
  simp only [decide_eq_true_eq]
  omega

theorem skipWs_not_ws (c : Char) (l : Chars) (h : isWsChar c = false) :
    skipWs (c :: l) = c :: l := by
  rw [skipWs, List.dropWhile_cons, h]
  simp

theorem digitsVal_replicate_zero (k : ℕ) (l : Chars) :
    digitsVal (List.replicate k '0' ++ l) = digitsVal l := by
  induction k with
  | zero => rfl
  | succ m ih =>
    have h0 : digitsVal (List.replicate (m + 1) '0' ++ l) =
        digitsVal (List.replicate m '0' ++ l) := by
      rw [List.replicate_succ, List.cons_append, digitsVal, List.foldl_cons]
      have : digitVal '0' = 0 := by decide
      rw [this]
      rfl
    rw [h0, ih]

theorem padLeft_all_digits (e : ℕ) (s : Chars) (hs : ∀ c ∈ s, isDigitChar c = true) :
    ∀ c ∈ padLeft e s, isDigitChar c = true := by
  intro c hc
  rw [padLeft] at hc
  rcases List.mem_append.mp hc with h | h
  · rw [List.eq_of_mem_replicate h]
    decide
  · exact hs c h

theorem padLeft_length (e : ℕ) (s : Chars) (h : s.length ≤ e) :
    (padLeft e s).length = e := by
  rw [padLeft, List.length_append, List.length_replicate]
  omega

theorem padLeft_ne_nil (e : ℕ) (he : 1 ≤ e) (s : Chars) (h : s.length ≤ e) :
    padLeft e s ≠ [] := by
  intro hc
  have := padLeft_length e s h
  rw [hc] at this
  simp at this
  omega

theorem digitsVal_padLeft (e : ℕ) (n : ℕ) :
    digitsVal (padLeft e (natStr n)) = n := by
  rw [padLeft, digitsVal_replicate_zero, digitsVal_natStr]

theorem take_one_not_digit (rest : Chars) (hstop : numStop rest) :
    ∀ c ∈ rest.take 1, isDigitChar c = false := by
  intro c hc
  match rest, hstop with
  | [], _ => simp at hc
  | r0 :: rs, hstop =>
    rw [List.take_succ_cons, List.take_zero] at hc
    rw [List.mem_singleton.mp hc]
    exact hstop.1

theorem headD_not_dot (rest : Chars) (hstop : numStop rest) : ¬ rest.headD ' ' = '.' := by
  match rest, hstop with
  | [], _ => decide
  | r0 :: rs, hstop =>
    show ¬ r0 = '.'
    exact hstop.2

theorem natAbs_pow_mod_lt (a e : ℕ) : a % 10 ^ e < 10 ^ e :=
  Nat.mod_lt a (Nat.pos_pow_of_pos e (by norm_num))

theorem parseNumber_inv (m : ℤ) (e : ℕ) (rest : Chars) (hstop : numStop rest) :
    parseNumberChars (numChars m e ++ rest) = some (Json.num m e, rest) := by
  have htake := take_one_not_digit rest hstop
  have hdot := headD_not_dot rest hstop
  have hds0 : (natStr m.natAbs ++ rest).takeWhile isDigitChar = natStr m.natAbs :=
    takeWhile_append_all isDigitChar (natStr m.natAbs) rest (natStr_all_digits _) htake
  have hdotdig : ∀ c ∈ ('.' :: (padLeft e (natStr (m.natAbs % 10 ^ e)) ++ rest)).take 1,
      isDigitChar c = false := by
    intro c hc
    rw [List.take_succ_cons, List.take_zero] at hc
    rw [List.mem_singleton.mp hc]
    decide
  have hdse : (natStr (m.natAbs / 10 ^ e) ++
        ('.' :: (padLeft e (natStr (m.natAbs % 10 ^ e)) ++ rest))).takeWhile isDigitChar =
      natStr (m.natAbs / 10 ^ e) :=
    takeWhile_append_all isDigitChar _ _ (natStr_all_digits _) hdotdig
  have hfs : (padLeft e (natStr (m.natAbs % 10 ^ e)) ++ rest).takeWhile isDigitChar =
      padLeft e (natStr (m.natAbs % 10 ^ e)) :=
    takeWhile_append_all isDigitChar _ _
      (padLeft_all_digits e _ (natStr_all_digits _)) htake
  by_cases he : e = 0
  · subst he
    by_cases hm : m < 0
    · have hbody : numChars m 0 = '-' :: natStr m.natAbs := by
        rw [numChars, if_pos hm, if_pos rfl]
        rfl
      rw [hbody, List.cons_append, parseNumberChars]
      simp only [List.headD_cons, List.tail_cons, eq_self_iff_true, ite_true]
      simp only [hds0, List.drop_left]
      rw [if_neg (natStr_ne_nil m.natAbs), if_neg hdot]
      have hval : (digitsVal (natStr m.natAbs) : ℤ) = -m := by
        rw [digitsVal_natStr]
        omega
      rw [hval]
      norm_num
    · have hbody : numChars m 0 = natStr m.natAbs := by
        rw [numChars, if_neg hm, if_pos rfl, List.nil_append]
      obtain ⟨c, cs, hcons⟩ := List.exists_cons_of_ne_nil (natStr_ne_nil m.natAbs)
      have hcdig : 48 ≤ c.toNat ∧ c.toNat ≤ 57 :=
        natStr_digits m.natAbs c (by rw [hcons]; exact List.mem_cons_self c cs)
      have hcneg : ¬ c = '-' := by
        intro h
        rw [h] at hcdig
        revert hcdig
        decide
      rw [hbody, parseNumberChars]
      rw [hcons, List.cons_append]
      simp only [List.headD_cons, eq_false hcneg, ite_false]
      rw [← List.cons_append, ← hcons]
      simp only [hds0, List.drop_left]
      rw [if_neg (natStr_ne_nil m.natAbs), if_neg hdot]
      have hval : (digitsVal (natStr m.natAbs) : ℤ) = m := by
        rw [digitsVal_natStr]
        omega
      rw [hval]
  · have h1e : 1 ≤ e := by omega
    have hlenle : (natStr (m.natAbs % 10 ^ e)).length ≤ e :=
      natStr_length_le e h1e _ (natAbs_pow_mod_lt m.natAbs e)
    have hpne : padLeft e (natStr (m.natAbs % 10 ^ e)) ≠ [] :=
      padLeft_ne_nil e h1e _ hlenle
    have hplen : (padLeft e (natStr (m.natAbs % 10 ^ e))).length = e :=
      padLeft_length e _ hlenle
    have hdrop2 : (padLeft e (natStr (m.natAbs % 10 ^ e)) ++ rest).drop
        (padLeft e (natStr (m.natAbs % 10 ^ e))).length = rest := List.drop_left _ _
    rw [hplen] at hdrop2
    by_cases hm : m < 0
    · have hbody : numChars m e = '-' :: (natStr (m.natAbs / 10 ^ e) ++
          '.' :: padLeft e (natStr (m.natAbs % 10 ^ e))) := by
        rw [numChars, if_pos hm, if_neg he]
        rfl
      rw [hbody, List.cons_append, parseNumberChars]
      simp only [List.headD_cons, List.tail_cons, eq_self_iff_true, ite_true]
      rw [List.append_assoc, List.cons_append]
      simp only [hdse, List.drop_left]
      rw [if_neg (natStr_ne_nil _)]
      simp only [List.headD_cons, eq_self_iff_true, ite_true, List.tail_cons]
      simp only [hfs]
      rw [if_neg hpne]
      rw [hplen, hdrop2]
      have hmag : -((digitsVal (natStr (m.natAbs / 10 ^ e)) : ℤ) * 10 ^ e +
          (digitsVal (padLeft e (natStr (m.natAbs % 10 ^ e))) : ℤ)) = m := by
        rw [digitsVal_natStr, digitsVal_padLeft]
        have h1 : ((m.natAbs / 10 ^ e : ℕ) * 10 ^ e + (m.natAbs % 10 ^ e : ℕ) : ℤ) =
            (m.natAbs : ℤ) := by
          exact_mod_cast Nat.div_add_mod' m.natAbs (10 ^ e)
        rw [h1]
        omega
      rw [hmag]
    · have hbody : numChars m e = natStr (m.natAbs / 10 ^ e) ++
          '.' :: padLeft e (natStr (m.natAbs % 10 ^ e)) := by
        rw [numChars, if_neg hm, if_neg he, List.nil_append]
      obtain ⟨c, cs, hcons⟩ := List.exists_cons_of_ne_nil (natStr_ne_nil (m.natAbs / 10 ^ e))
      have hcdig : 48 ≤ c.toNat ∧ c.toNat ≤ 57 :=
        natStr_digits _ c (by rw [hcons]; exact List.mem_cons_self c cs)
      have hcneg : ¬ c = '-' := by
        intro h
        rw [h] at hcdig
        revert hcdig
        decide
      rw [hbody, parseNumberChars]
      rw [List.append_assoc, List.cons_append]
      rw [hcons, List.cons_append]
      simp only [List.headD_cons, eq_false hcneg, ite_false]
      rw [← List.cons_append, ← hcons]
      simp only [hdse, List.drop_left]
      rw [if_neg (natStr_ne_nil _)]
      simp only [List.headD_cons, eq_self_iff_true, ite_true, List.tail_cons]
      simp only [hfs]
      rw [if_neg hpne]
      rw [hplen, hdrop2]
      have hmag : (digitsVal (natStr (m.natAbs / 10 ^ e)) : ℤ) * 10 ^ e +
          (digitsVal (padLeft e (natStr (m.natAbs % 10 ^ e))) : ℤ) = m := by
        rw [digitsVal_natStr, digitsVal_padLeft]
        have h1 : ((m.natAbs / 10 ^ e : ℕ) * 10 ^ e + (m.natAbs % 10 ^ e : ℕ) : ℤ) =
            (m.natAbs : ℤ) := by
          exact_mod_cast Nat.div_add_mod' m.natAbs (10 ^ e)
        rw [h1]
        omega
      rw [hmag]

theorem unhex_hexDigit (d : ℕ) (hd : d < 16) : unhex (hexDigit d) = d := by
  interval_cases d <;> decide

theorem parseStringBody_escapeChars (s : Chars) : ∀ rest : Chars,
    parseStringBody (escapeChars s ++ '"' :: rest) = some (s, rest) := by
  induction s with
  | nil =>
    intro rest
    rw [escapeChars, List.nil_append, parseStringBody.eq_def]
    simp
  | cons c t ih =>
    intro rest
    rw [escapeChars, List.append_assoc, escapeChar]
    split_ifs with h1 h2 h3 h4 h5 h6 h7 h8
    · subst h1
      rw [List.cons_append, List.cons_append, List.nil_append, parseStringBody.eq_def]
      simp [unescapeChar, ih]
    · subst h2
      rw [List.cons_append, List.cons_append, List.nil_append, parseStringBody.eq_def]
      simp [unescapeChar, ih]
    · subst h3
      rw [List.cons_append, List.cons_append, List.nil_append, parseStringBody.eq_def]
      simp [unescapeChar, ih]
    · subst h4
      rw [List.cons_append, List.cons_append, List.nil_append, parseStringBody.eq_def]
      simp [unescapeChar, ih]
    · subst h5
      rw [List.cons_append, List.cons_append, List.nil_append, parseStringBody.eq_def]
      simp [unescapeChar, ih]
    · subst h6
      rw [List.cons_append, List.cons_append, List.nil_append, parseStringBody.eq_def]
      simp [unescapeChar, ih]
    · subst h7
      rw [List.cons_append, List.cons_append, List.nil_append, parseStringBody.eq_def]
      simp [unescapeChar, ih]
    · have hdiv : c.toNat / 16 < 16 := by omega
      have hmod : c.toNat % 16 < 16 := Nat.mod_lt _ (by norm_num)
      have hval : ((unhex '0' * 16 + unhex '0') * 16 + unhex (hexDigit (c.toNat / 16))) * 16 +
          unhex (hexDigit (c.toNat % 16)) = c.toNat := by
        rw [unhex_hexDigit _ hdiv, unhex_hexDigit _ hmod]
        have h0 : unhex '0' = 0 := by decide
        rw [h0]
        omega
      simp only [List.cons_append, List.nil_append]
      rw [parseStringBody.eq_def]
      simp [ih, hval, Char.ofNat_toNat]
    · rw [List.cons_append, List.nil_append, parseStringBody.eq_def]
      simp [h1, h2, ih]

theorem char_ne_of_toNat_ne (c d : Char) (h : c.toNat ≠ d.toNat) : c ≠ d :=
  fun hc => h (congrArg Char.toNat hc)

theorem numChars_shape (m : ℤ) (e : ℕ) : ∃ c cs, numChars m e = c :: cs ∧
    (c = '-' ∨ (48 ≤ c.toNat ∧ c.toNat ≤ 57)) := by
  rw [numChars]
  by_cases hm : m < 0
  · rw [if_pos hm]
    exact ⟨'-', _, rfl, Or.inl rfl⟩
  · rw [if_neg hm, List.nil_append]
    by_cases he : e = 0
    · rw [if_pos he]
      obtain ⟨c, cs, hc⟩ := List.exists_cons_of_ne_nil (natStr_ne_nil m.natAbs)
      exact ⟨c, cs, hc, Or.inr (natStr_digits _ c (by rw [hc]; exact List.mem_cons_self c cs))⟩
    · rw [if_neg he]
      obtain ⟨c, cs, hc⟩ := List.exists_cons_of_ne_nil (natStr_ne_nil (m.natAbs / 10 ^ e))
      refine ⟨c, cs ++ '.' :: padLeft e (natStr (m.natAbs % 10 ^ e)), ?_,
        Or.inr (natStr_digits _ c (by rw [hc]; exact List.mem_cons_self c cs))⟩
      rw [hc, List.cons_append]

theorem num_head_props (c : Char) (h : c = '-' ∨ (48 ≤ c.toNat ∧ c.toNat ≤ 57)) :
    isWsChar c = false ∧ ¬c = 'n' ∧ ¬c = 't' ∧ ¬c = 'f' ∧ ¬c = '"' ∧ ¬c = '\x7b' := by
  rcases h with h | h
  · subst h
    refine ⟨by decide, by decide, by decide, by decide, by decide, by decide⟩
  · refine ⟨?_, ?_, ?_, ?_, ?_, ?_⟩
    · rw [isWsChar]
      apply decide_eq_false
      rintro (hc | hc | hc | hc) <;> (rw [hc] at h; exact absurd h (by decide))
    all_goals (intro hc; rw [hc] at h; exact absurd h (by decide))

theorem dumpsFields_cons_head (k : Chars) (v : Json) (fs : JObj) :
    ∃ t, dumpsFields (JObj.cons k v fs) = '"' :: t := by
  cases fs with
  | nil =>
    refine ⟨escapeChars k ++ '"' :: ':' :: ' ' :: dumpsJson v, ?_⟩
    simp [dumpsFields, dumpsEntry]
  | cons k2 v2 fs2 =>
    refine ⟨escapeChars k ++ ('"' :: ':' :: ' ' :: dumpsJson v ++
      ',' :: ' ' :: dumpsFields (JObj.cons k2 v2 fs2)), ?_⟩
    rw [dumpsFields.eq_def]
    simp [dumpsEntry]

theorem parseValue_cons_ws (fuel : ℕ) (c : Char) (s : Chars) (h : isWsChar c = true) :
    parseValue fuel (c :: s) = parseValue fuel s := by
  cases fuel with
  | zero => rfl
  | succ n =>
    have hs : skipWs (c :: s) = skipWs s := by
      rw [skipWs, List.dropWhile_cons, if_pos h]
      rfl
    simp only [parseValue, hs]

theorem parseFields_cons_ws (fuel : ℕ) (c : Char) (s : Chars) (h : isWsChar c = true) :
    parseFields fuel (c :: s) = parseFields fuel s := by
  cases fuel with
  | zero => rfl
  | succ n =>
    have hs : skipWs (c :: s) = skipWs s := by
      rw [skipWs, List.dropWhile_cons, if_pos h]
      rfl
    simp only [parseFields, hs]

theorem jsonFuel_pos (j : Json) : 1 ≤ jsonFuel j := by
  cases j <;> simp [jsonFuel]

theorem jobjFuel_pos (f : JObj) : 1 ≤ jobjFuel f := by
  cases f <;> simp [jobjFuel]

theorem numStop_cons (c : Char) (l : Chars) (h1 : isDigitChar c = false) (h2 : c ≠ '.') :
    numStop (c :: l) := ⟨h1, h2⟩

theorem numStop_nil : numStop ([] : Chars) := trivial

theorem parse_dumps (fuel : ℕ) :
    (∀ (j : Json) (rest : Chars), jsonFuel j ≤ fuel → numStop rest →
      parseValue fuel (dumpsJson j ++ rest) = some (j, rest)) ∧
    (∀ (k : Chars) (v : Json) (fs : JObj) (rest : Chars),
      jobjFuel (JObj.cons k v fs) ≤ fuel →
      parseFields fuel (dumpsFields (JObj.cons k v fs) ++ '\x7d' :: rest) =
        some (JObj.cons k v fs, rest)) := by
  induction fuel with
  | zero =>
    constructor
    · intro j rest hf _
      have := jsonFuel_pos j
      omega
    · intro k v fs rest hf
      have := jobjFuel_pos (JObj.cons k v fs)
      omega
  | succ n ih =>
    obtain ⟨ihP, ihQ⟩ := ih
    constructor
    · intro j rest hfuel hstop
      cases j with
      | null =>
        simp only [dumpsJson]
        simp only [List.cons_append, List.nil_append]
        rw [parseValue.eq_2]
        rw [skipWs_not_ws _ _ (by decide)]
        simp
      | jbool b =>
        cases b with
        | false =>
          simp only [dumpsJson, Bool.false_eq_true, ite_false]
          simp only [List.cons_append, List.nil_append]
          rw [parseValue.eq_2]
          rw [skipWs_not_ws _ _ (by decide)]
          simp
        | true =>
          simp only [dumpsJson, ite_true]
          simp only [List.cons_append, List.nil_append]
          rw [parseValue.eq_2]
          rw [skipWs_not_ws _ _ (by decide)]
          simp
      | num m e =>
        simp only [dumpsJson]
        obtain ⟨c, cs, hc, hdig⟩ := numChars_shape m e
        obtain ⟨hws, hn, ht, hf, hq, hb⟩ := num_head_props c hdig
        rw [hc, List.cons_append, parseValue.eq_2]
        rw [skipWs_not_ws _ _ hws]
        simp only [hn, ht, hf, hq, hb, ite_false, if_neg]
        rw [← List.cons_append, ← hc]
        exact parseNumber_inv m e rest hstop
      | str s =>
        simp only [dumpsJson]
        simp only [List.cons_append, List.append_assoc, List.singleton_append]
        rw [parseValue.eq_2]
        rw [skipWs_not_ws _ _ (by decide)]
        simp [parseStringBody_escapeChars]
      | obj fields =>
        simp only [dumpsJson]
        simp only [List.cons_append, List.append_assoc, List.singleton_append]
        rw [parseValue.eq_2]
        rw [skipWs_not_ws _ _ (by decide)]
        cases fields with
        | nil =>
          simp only [dumpsFields, List.nil_append]
          rw [skipWs_not_ws _ _ (by decide)]
          simp
        | cons k v fs =>
          obtain ⟨t, ht⟩ := dumpsFields_cons_head k v fs
          rw [ht, List.cons_append]
          simp only [List.nil_append]
          rw [skipWs_not_ws _ _ (by decide)]
          rw [← List.cons_append, ← ht]
          have hq : jobjFuel (JObj.cons k v fs) ≤ n := by
            simp only [jsonFuel] at hfuel
            omega
          simp only [ihQ k v fs rest hq]
          rw [ht, List.cons_append]
          simp
    · intro k v fs rest hfuel
      cases fs with
      | nil =>
        have hjv : jsonFuel v ≤ n := by
          simp only [jobjFuel] at hfuel
          omega
        simp only [dumpsFields, dumpsEntry]
        simp only [List.cons_append, List.append_assoc]
        rw [parseFields.eq_2]
        rw [skipWs_not_ws _ _ (by decide)]
        simp only [List.cons_append]
        rw [parseStringBody_escapeChars]
        simp only []
        rw [skipWs_not_ws _ _ (by decide)]
        simp only [ite_true, eq_self_iff_true]
        rw [parseValue_cons_ws _ _ _ (by decide)]
        rw [ihP v ('\x7d' :: rest) hjv (numStop_cons _ _ (by decide) (by decide))]
        simp only []
        rw [skipWs_not_ws _ _ (by decide)]
        simp
      | cons k2 v2 fs2 =>
        have hstep : jobjFuel (JObj.cons k v (JObj.cons k2 v2 fs2)) =
            max (jsonFuel v) (jobjFuel (JObj.cons k2 v2 fs2)) + 1 := by
          rw [jobjFuel]
        have hjv : jsonFuel v ≤ n := by omega
        have hq2 : jobjFuel (JObj.cons k2 v2 fs2) ≤ n := by omega
        have hdf : dumpsFields (JObj.cons k v (JObj.cons k2 v2 fs2)) =
            dumpsEntry k v ++ ',' :: ' ' :: dumpsFields (JObj.cons k2 v2 fs2) := by
          rw [dumpsFields.eq_def]
        rw [hdf, dumpsEntry]
        simp only [List.cons_append, List.append_assoc]
        rw [parseFields.eq_2]
        rw [skipWs_not_ws _ _ (by decide)]
        simp only [List.cons_append]
        rw [parseStringBody_escapeChars]
        simp only []
        rw [skipWs_not_ws _ _ (by decide)]
        simp only [ite_true, eq_self_iff_true]
        rw [parseValue_cons_ws _ _ _ (by decide)]
        rw [ihP v (',' :: ' ' :: (dumpsFields (JObj.cons k2 v2 fs2) ++ '\x7d' :: rest)) hjv
          (numStop_cons _ _ (by decide) (by decide))]
        simp only []
        rw [skipWs_not_ws _ _ (by decide)]
        simp only [ite_true, eq_self_iff_true]
        rw [parseFields_cons_ws _ _ _ (by decide)]
        rw [ihQ k2 v2 fs2 rest hq2]
        rfl

mutual
theorem jsonFuel_le : ∀ j : Json, jsonFuel j ≤ (dumpsJson j).length + 1
  | Json.null => by simp [jsonFuel]
  | Json.jbool b => by simp [jsonFuel]
  | Json.num m e => by simp [jsonFuel]
  | Json.str s => by simp [jsonFuel]
  | Json.obj f => by
    have h := jobjFuel_le f
    simp only [jsonFuel, dumpsJson, List.length_cons, List.length_append]
    omega
theorem jobjFuel_le : ∀ f : JObj, jobjFuel f ≤ (dumpsFields f).length + 1
  | JObj.nil => by simp [jobjFuel]
  | JObj.cons k v JObj.nil => by
    have hv := jsonFuel_le v
    simp only [jobjFuel, dumpsFields, dumpsEntry, List.length_cons, List.length_append]
    omega
  | JObj.cons k v (JObj.cons k2 v2 fs2) => by
    have hv := jsonFuel_le v
    have hf := jobjFuel_le (JObj.cons k2 v2 fs2)
    have hstep : jobjFuel (JObj.cons k v (JObj.cons k2 v2 fs2)) =
        max (jsonFuel v) (jobjFuel (JObj.cons k2 v2 fs2)) + 1 := by
      rw [jobjFuel]
    have hdf : dumpsFields (JObj.cons k v (JObj.cons k2 v2 fs2)) =
        dumpsEntry k v ++ ',' :: ' ' :: dumpsFields (JObj.cons k2 v2 fs2) := by
      rw [dumpsFields.eq_def]
    rw [hstep, hdf]
    simp only [dumpsEntry, List.length_cons, List.length_append]
    omega
end

theorem json_loads_dumps (j : Json) : json_loads (dumpsJson j) = some j := by
  rw [json_loads]
  have h := (parse_dumps ((dumpsJson j).length + 1)).1 j []
    (by have := jsonFuel_le j; omega) numStop_nil
  rw [List.append_nil] at h
  rw [h]
  simp [skipWs]

theorem newline_ne_hexDigit (d : ℕ) : ¬ ('\n' = hexDigit d) := by
  have h : d % 16 < 16 := Nat.mod_lt _ (by norm_num)
  rw [hexDigit]
  generalize hk : d % 16 = k at h
  interval_cases k <;> decide

theorem escapeChar_no_newline (c : Char) : '\n' ∉ escapeChar c := by
  rw [escapeChar]
  split_ifs with h1 h2 h3 h4 h5 h6 h7 h8
  · decide
  · decide
  · decide
  · decide
  · decide
  · decide
  · decide
  · intro h
    simp only [List.mem_cons, List.not_mem_nil, or_false] at h
    rcases h with h | h | h | h | h | h
    · exact absurd h (by decide)
    · exact absurd h (by decide)
    · exact absurd h (by decide)
    · exact absurd h (by decide)
    · exact newline_ne_hexDigit _ h
    · exact newline_ne_hexDigit _ h
  · intro h
    exact h3 (List.mem_singleton.mp h).symm

theorem escapeChars_no_newline (s : Chars) : '\n' ∉ escapeChars s := by
  induction s with
  | nil => exact List.not_mem_nil _
  | cons c t ih =>
    rw [escapeChars]
    intro h
    rcases List.mem_append.mp h with h | h
    · exact escapeChar_no_newline c h
    · exact ih h

theorem numChars_mem (m : ℤ) (e : ℕ) : ∀ c ∈ numChars m e,
    c = '-' ∨ c = '.' ∨ (48 ≤ c.toNat ∧ c.toNat ≤ 57) := by
  intro c hc
  rw [numChars] at hc
  rcases List.mem_append.mp hc with h | h
  · by_cases hm : m < 0
    · rw [if_pos hm] at h
      exact Or.inl (List.mem_singleton.mp h)
    · rw [if_neg hm] at h
      exact absurd h (List.not_mem_nil c)
  · by_cases he : e = 0
    · rw [if_pos he] at h
      exact Or.inr (Or.inr (natStr_digits _ c h))
    · rw [if_neg he] at h
      rcases List.mem_append.mp h with h2 | h2
      · exact Or.inr (Or.inr (natStr_digits _ c h2))
      · rcases List.mem_cons.mp h2 with h3 | h3
        · exact Or.inr (Or.inl h3)
        · rw [padLeft] at h3
          rcases List.mem_append.mp h3 with h4 | h4
          · rw [List.eq_of_mem_replicate h4]
            exact Or.inr (Or.inr (by decide))
          · exact Or.inr (Or.inr (natStr_digits _ c h4))

theorem isWsChar_false_of_token (c : Char)
    (h : c = '-' ∨ c = '.' ∨ (48 ≤ c.toNat ∧ c.toNat ≤ 57)) : isWsChar c = false := by
  rcases h with h | h | h
  · subst h; decide
  · subst h; decide
  · rw [isWsChar]
    apply decide_eq_false
    rintro (hc | hc | hc | hc) <;> (rw [hc] at h; exact absurd h (by decide))

theorem dumpsEntry_no_newline (k : Chars) (v : Json) (hv : '\n' ∉ dumpsJson v) :
    '\n' ∉ dumpsEntry k v := by
  intro h
  rw [dumpsEntry] at h
  rcases List.mem_cons.mp h with h1 | h1
  · exact absurd h1 (by decide)
  rcases List.mem_append.mp h1 with h2 | h2
  · exact escapeChars_no_newline k h2
  rcases List.mem_cons.mp h2 with h3 | h3
  · exact absurd h3 (by decide)
  rcases List.mem_cons.mp h3 with h4 | h4
  · exact absurd h4 (by decide)
  rcases List.mem_cons.mp h4 with h5 | h5
  · exact absurd h5 (by decide)
  · exact hv h5

mutual
theorem dumpsJson_no_newline : ∀ j : Json, '\n' ∉ dumpsJson j
  | Json.null => by
    simp only [dumpsJson]
    decide
  | Json.jbool b => by
    cases b <;> simp only [dumpsJson, ite_true, Bool.false_eq_true, ite_false] <;> decide
  | Json.num m e => by
    intro h
    simp only [dumpsJson] at h
    rcases numChars_mem m e _ h with h1 | h1 | h1
    · exact absurd h1 (by decide)
    · exact absurd h1 (by decide)
    · exact absurd h1 (by decide)
  | Json.str s => by
    intro h
    simp only [dumpsJson] at h
    rcases List.mem_cons.mp h with h1 | h1
    · exact absurd h1 (by decide)
    rcases List.mem_append.mp h1 with h2 | h2
    · exact escapeChars_no_newline s h2
    · exact absurd (List.mem_singleton.mp h2) (by decide)
  | Json.obj f => by
    intro h
    simp only [dumpsJson] at h
    rcases List.mem_cons.mp h with h1 | h1
    · exact absurd h1 (by decide)
    rcases List.mem_append.mp h1 with h2 | h2
    · exact dumpsFields_no_newline f h2
    · exact absurd (List.mem_singleton.mp h2) (by decide)
theorem dumpsFields_no_newline : ∀ f : JObj, '\n' ∉ dumpsFields f
  | JObj.nil => by
    intro h
    simp only [dumpsFields] at h
    exact List.not_mem_nil _ h
  | JObj.cons k v JObj.nil => by
    intro h
    simp only [dumpsFields] at h
    exact dumpsEntry_no_newline k v (dumpsJson_no_newline v) h
  | JObj.cons k v (JObj.cons k2 v2 fs2) => by
    intro h
    have hdf : dumpsFields (JObj.cons k v (JObj.cons k2 v2 fs2)) =
        dumpsEntry k v ++ ',' :: ' ' :: dumpsFields (JObj.cons k2 v2 fs2) := by
      rw [dumpsFields.eq_def]
    rw [hdf] at h
    rcases List.mem_append.mp h with h1 | h1
    · exact dumpsEntry_no_newline k v (dumpsJson_no_newline v) h1
    rcases List.mem_cons.mp h1 with h2 | h2
    · exact absurd h2 (by decide)
    rcases List.mem_cons.mp h2 with h3 | h3
    · exact absurd h3 (by decide)
    · exact dumpsFields_no_newline (JObj.cons k2 v2 fs2) h3
end

theorem dumpsJson_head (j : Json) : ∃ c cs, dumpsJson j = c :: cs ∧ isWsChar c = false := by
  cases j with
  | null => exact ⟨'n', ['u', 'l', 'l'], by simp [dumpsJson], by decide⟩
  | jbool b =>
    cases b with
    | false =>
      exact ⟨'f', ['a', 'l', 's', 'e'],
        by simp [dumpsJson, Bool.false_eq_true, ite_false], by decide⟩
    | true => exact ⟨'t', ['r', 'u', 'e'], by simp [dumpsJson, ite_true], by decide⟩
  | num m e =>
    obtain ⟨c, cs, hc, hdig⟩ := numChars_shape m e
    exact ⟨c, cs, by simp only [dumpsJson]; exact hc, (num_head_props c hdig).1⟩
  | str s => exact ⟨'"', escapeChars s ++ ['"'], by simp [dumpsJson], by decide⟩
  | obj f => exact ⟨'\x7b', dumpsFields f ++ ['\x7d'], by simp [dumpsJson], by decide⟩

theorem numChars_ne_nil (m : ℤ) (e : ℕ) : numChars m e ≠ [] := by
  obtain ⟨c, cs, hc, _⟩ := numChars_shape m e
  rw [hc]
  exact List.cons_ne_nil c cs

theorem dumpsJson_last (j : Json) : ∃ cs c, dumpsJson j = cs ++ [c] ∧ isWsChar c = false := by
  cases j with
  | null => exact ⟨['n', 'u', 'l'], 'l', by simp [dumpsJson], by decide⟩
  | jbool b =>
    cases b with
    | false =>
      exact ⟨['f', 'a', 'l', 's'], 'e',
        by simp [dumpsJson, Bool.false_eq_true, ite_false], by decide⟩
    | true => exact ⟨['t', 'r', 'u'], 'e', by simp [dumpsJson, ite_true], by decide⟩
  | num m e =>
    have hne := numChars_ne_nil m e
    refine ⟨(numChars m e).dropLast, (numChars m e).getLast hne,
      by simp only [dumpsJson]; exact (List.dropLast_append_getLast hne).symm, ?_⟩
    exact isWsChar_false_of_token _ (numChars_mem m e _ (List.getLast_mem hne))
  | str s => exact ⟨'"' :: escapeChars s, '"', by simp [dumpsJson], by decide⟩
  | obj f => exact ⟨'\x7b' :: dumpsFields f, '\x7d', by simp [dumpsJson], by decide⟩

theorem stripChars_eq_self (l : Chars) (hh : ∀ c ∈ l.take 1, isWsChar c = false)
    (hl : ∀ c ∈ l.reverse.take 1, isWsChar c = false) : stripChars l = l := by
  cases l with
  | nil => rfl
  | cons c cs =>
    rw [stripChars]
    have h1 : (c :: cs).dropWhile isWsChar = c :: cs := by
      rw [List.dropWhile_cons, hh c (by simp)]
      simp
    rw [h1]
    cases hr : (c :: cs).reverse with
    | nil => exact absurd hr (by simp)
    | cons d t =>
      have hd : isWsChar d = false := hl d (by rw [hr]; simp)
      rw [List.dropWhile_cons, hd]
      simp only [Bool.false_eq_true, ite_false]
      rw [← hr, List.reverse_reverse]

theorem stripChars_dumpsJson (j : Json) : stripChars (dumpsJson j) = dumpsJson j := by
  obtain ⟨c, cs, hc, hwc⟩ := dumpsJson_head j
  obtain ⟨ds, d, hd, hwd⟩ := dumpsJson_last j
  apply stripChars_eq_self
  · intro x hx
    rw [hc, List.take_succ_cons, List.take_zero] at hx
    rw [List.mem_singleton.mp hx]
    exact hwc
  · intro x hx
    rw [hd, List.reverse_append, List.reverse_singleton, List.singleton_append,
      List.take_succ_cons, List.take_zero] at hx
    rw [List.mem_singleton.mp hx]
    exact hwd

theorem dumpsJson_ne_nil (j : Json) : dumpsJson j ≠ [] := by
  obtain ⟨c, cs, hc, _⟩ := dumpsJson_head j
  rw [hc]
  exact List.cons_ne_nil c cs

theorem splitOnChar_sep_append (sep : Char) (l : Chars) (h : sep ∉ l) (rest : Chars) :
    splitOnChar sep (l ++ sep :: rest) = l :: splitOnChar sep rest := by
  induction l with
  | nil =>
    rw [List.nil_append]
    simp only [splitOnChar]
    simp only [eq_self_iff_true, ite_true]
  | cons c cs ih =>
    rw [List.cons_append]
    simp only [splitOnChar]
    have hc : ¬ c = sep := fun hcs => h (hcs ▸ List.mem_cons_self c cs)
    rw [if_neg hc, ih (fun hm => h (List.mem_cons_of_mem c hm))]
    rfl

theorem split_save (objs : List Json) :
    splitOnChar '\n' (save_jsonl_file objs) = objs.map dumpsJson ++ [[]] := by
  induction objs with
  | nil => rfl
  | cons o os ih =>
    simp only [save_jsonl_file, List.map_cons, List.flatten_cons, List.append_assoc,
      List.singleton_append]
    rw [splitOnChar_sep_append '\n' (dumpsJson o) (dumpsJson_no_newline o)]
    simp only [save_jsonl_file] at ih
    rw [ih]
    simp

theorem loadLines_dumps (objs : List Json) :
    loadLines (objs.map dumpsJson ++ [[]]) = some objs := by
  induction objs with
  | nil => rfl
  | cons o os ih =>
    simp only [List.map_cons, List.cons_append]
    simp only [loadLines]
    rw [stripChars_dumpsJson o]
    rw [if_neg (dumpsJson_ne_nil o)]
    rw [json_loads_dumps o, ih]

/-- C4: For every list of JSON records, loading the batch file produced by
`save_jsonl_file` returns exactly the original records:
`load_jsonl_file (save_jsonl_file objs) = some objs` (the code emits one
`json.dumps` line per record and `load_jsonl_file` parses each non-blank
stripped line back, so the round trip is the identity — in fact field order
is preserved exactly, which is stronger than the claimed
order-insensitive equality). -/
theorem save_load_roundtrip (objs : List Json) :
    load_jsonl_file (save_jsonl_file objs) = some objs := by
  rw [load_jsonl_file, split_save, loadLines_dumps]
